import Mathlib

/-!
Verification development for `starlette_openapi` (src/starlette_openapi/__init__.py).

The module introspects a Starlette route table and synthesizes an OpenAPI 3.0.3
document.  We embed the module shallowly:

* Python values that can appear in the document are modelled by `Value`
  (`Value.null` is Python `None`; `Value.node fs attrs` is an instance of an
  `OpenApiObj` subclass with `fixed_fields = fs` and the instance attributes
  `attrs`; an attribute absent from `attrs` models `hasattr` being false).
* Python dicts are modelled as association lists with insertion-order
  semantics: assignment (`d[k] = v`) is `dupdate`, lookup is `alookup`.
* The reflective serializer `OpenApiObj.dict` is `serField`/`dictFields`.
* Stateful methods of the `OpenApi` class are modelled by explicit state
  passing; Python exceptions (`KeyError`, `AttributeError`) are `Option.none`.
-/

/-- Python values appearing in the generated document.  `node fs attrs` models
an `OpenApiObj` instance: `fs` is the class's `fixed_fields` list and `attrs`
the attribute dictionary of the instance (a missing key models a missing
attribute, a `null` value models an attribute set to `None`). -/
inductive Value where
  | null : Value
  | bool : Bool → Value
  | int : Int → Value
  | str : String → Value
  | vlist : List Value → Value
  | vdict : List (String × Value) → Value
  | node : List String → List (String × Value) → Value

/-- Association-list lookup, mirroring Python dict lookup (`d[k]` / `d.get(k)`).
Returns the first binding of the key. -/
def alookup {α : Type} [DecidableEq α] {β : Type} : List (α × β) → α → Option β
  | [], _ => none
  | p :: rest, k => if p.1 = k then some p.2 else alookup rest k

/-- Python dict assignment `d[k] = v`: replaces the value in place if the key is
present, otherwise appends the new binding at the end (insertion order). -/
def dupdate {α : Type} [DecidableEq α] {β : Type} : List (α × β) → α → β → List (α × β)
  | [], k, v => [(k, v)]
  | p :: rest, k, v => if p.1 = k then (k, v) :: rest else p :: dupdate rest k v

/-- The field rename performed by `OpenApiObj.dict`: the internal name `ref` is
emitted as `$ref` and the internal name `location_in` as `in`. -/
def rename_field (f : String) : String :=
  if f = "ref" then "$ref" else if f = "location_in" then "in" else f

theorem alookup_sizeOf {l : List (String × Value)} {k : String} {v : Value}
    (h : alookup l k = some v) : sizeOf v < sizeOf l := by
  induction l with
  | nil => simp [alookup] at h
  | cons p rest ih =>
    simp only [alookup] at h
    by_cases hk : p.1 = k
    · simp [hk] at h
      subst h
      cases p with
      | mk a b => simp; omega
    · simp [hk] at h
      have := ih h
      simp; omega

/-- The two skip conditions of `OpenApiObj.dict` combined: the field's value
when the attribute exists (`hasattr`) and is not `None`, else `none`. -/
def set_value (attrs : List (String × Value)) (f : String) : Option Value :=
  match alookup attrs f with
  | none => none
  | some Value.null => none
  | some v => some v

theorem set_value_sizeOf {attrs : List (String × Value)} {f : String} {v : Value}
    (h : set_value attrs f = some v) : sizeOf v < sizeOf attrs := by
  unfold set_value at h
  cases hl : alookup attrs f with
  | none => rw [hl] at h; cases h
  | some w =>
    rw [hl] at h
    have := alookup_sizeOf hl
    cases w <;> simp_all <;> omega

mutual

/-- Serialization of an attribute value inside `OpenApiObj.dict`: a nested
`OpenApiObj` is serialized recursively; a list or dict has its elements
serialized one level deep (`isinstance(a, OpenApiObj)` dispatch); anything else
is passed through unchanged. -/
def serField : Value → Value
  | Value.node fs attrs => Value.vdict (dictFields attrs fs [])
  | Value.vlist xs => Value.vlist (serList xs)
  | Value.vdict kvs => Value.vdict (serPairs kvs)
  | v => v
termination_by v => sizeOf v
decreasing_by
  all_goals simp_wf
  all_goals omega

/-- Serialization of one element of a list-valued or dict-valued attribute:
only `OpenApiObj` instances are serialized, everything else passes through. -/
def serElem : Value → Value
  | Value.node fs attrs => Value.vdict (dictFields attrs fs [])
  | v => v
termination_by v => sizeOf v
decreasing_by
  all_goals simp_wf
  all_goals omega

def serList : List Value → List Value
  | [] => []
  | v :: vs => serElem v :: serList vs
termination_by xs => sizeOf xs
decreasing_by
  all_goals simp_wf
  all_goals omega

def serPairs : List (String × Value) → List (String × Value)
  | [] => []
  | (k, v) :: kvs => (k, serElem v) :: serPairs kvs
termination_by kvs => sizeOf kvs
decreasing_by
  all_goals simp_wf
  all_goals omega

/-- The body of `OpenApiObj.dict`: iterate `fixed_fields` in order; skip a
field whose attribute is missing (`hasattr` false) or `None`; otherwise
serialize the value, rename `ref`/`location_in`, and assign into the result
dict. -/
def dictFields (attrs : List (String × Value)) : List String → List (String × Value) → List (String × Value)
  | [], result => result
  | f :: rest, result =>
    match h : set_value attrs f with
    | none => dictFields attrs rest result
    | some v => dictFields attrs rest (dupdate result (rename_field f) (serField v))
termination_by fs _result => sizeOf attrs + sizeOf fs
decreasing_by
  all_goals simp_wf
  all_goals have := set_value_sizeOf h
  all_goals omega

end

/-- Python truthiness of the values that occur in this development. -/
def isTruthy : Value → Bool
  | Value.null => false
  | Value.bool b => b
  | Value.int n => n != 0
  | Value.str s => s ≠ ""
  | Value.vlist xs => !xs.isEmpty
  | Value.vdict kvs => !kvs.isEmpty
  | Value.node _ _ => true

/-- Helper: embed an optional Python string attribute (`None` or `str`). -/
def optStr : Option String → Value
  | none => Value.null
  | some s => Value.str s

/-- `OpenApiInfo.__init__` (title, version, description; `termsOfService`,
`contact` and `license` stay `None` in every call made by this module). -/
structure OpenApiInfo where
  title : String
  description : Option String
  version : String

def OpenApiInfo.fixed_fields : List String :=
  ["title", "description", "termsOfService", "contact", "license", "version"]

def OpenApiInfo.toNode (i : OpenApiInfo) : Value :=
  Value.node OpenApiInfo.fixed_fields
    [("title", Value.str i.title), ("description", optStr i.description),
     ("termsOfService", Value.null), ("contact", Value.null),
     ("license", Value.null), ("version", Value.str i.version)]

/-- `OpenApiSecuritySchema`: the constructor sets every attribute to `None` —
including an attribute named `schema`, although the class's `fixed_fields`
list declares `scheme` — and `get_openapi_components` later assigns `type`
and `flows`.  We record the two assigned attributes; all others stay `None`,
and no attribute named `scheme` ever exists. -/
structure OpenApiSecuritySchema where
  type : Value
  flows : Value

def OpenApiSecuritySchema.fixed_fields : List String :=
  ["type", "description", "name", "location_in", "scheme", "bearerFormat",
   "flows", "openIdConnectUrl"]

def OpenApiSecuritySchema.toNode (s : OpenApiSecuritySchema) : Value :=
  Value.node OpenApiSecuritySchema.fixed_fields
    [("type", s.type), ("description", Value.null), ("name", Value.null),
     ("location_in", Value.null), ("schema", Value.null),
     ("bearerFormat", Value.null), ("flows", s.flows),
     ("openIdConnectUrl", Value.null)]

/-- `OpenApiComponents.__init__`: nine empty dicts; `set_schemas` replaces
`schemas` and `add_security_schemas` fills `securitySchemes`. -/
structure OpenApiComponents where
  schemas : List (String × Value)
  securitySchemes : List (String × OpenApiSecuritySchema)

def OpenApiComponents.fixed_fields : List String :=
  ["schemas", "responses", "parameters", "examples", "requestBodies",
   "headers", "securitySchemes", "links", "callbacks"]

def OpenApiComponents.toNode (c : OpenApiComponents) : Value :=
  Value.node OpenApiComponents.fixed_fields
    [("schemas", Value.vdict c.schemas), ("responses", Value.vdict []),
     ("parameters", Value.vdict []), ("examples", Value.vdict []),
     ("requestBodies", Value.vdict []), ("headers", Value.vdict []),
     ("securitySchemes",
       Value.vdict (c.securitySchemes.map (fun p => (p.1, p.2.toNode)))),
     ("links", Value.vdict []), ("callbacks", Value.vdict [])]

/-- `OpenApiOperationParameter.__init__` as invoked by the module: only
`name`, `location_in` and `required` are ever given; `description`,
`deprecated`, `allowEmptyValue` and `type` stay `None`. -/
structure OpenApiOperationParameter where
  name : String
  location_in : String
  required : Bool
deriving DecidableEq

def OpenApiOperationParameter.fixed_fields : List String :=
  ["name", "location_in", "description", "required", "deprecated",
   "allowEmptyValue", "type"]

def OpenApiOperationParameter.toNode (p : OpenApiOperationParameter) : Value :=
  Value.node OpenApiOperationParameter.fixed_fields
    [("name", Value.str p.name), ("location_in", Value.str p.location_in),
     ("required", Value.bool p.required), ("description", Value.null),
     ("deprecated", Value.null), ("allowEmptyValue", Value.null),
     ("type", Value.null)]

/-- `OpenApiOperationRequest.__init__`: `required=True` by default, empty
`content`, `description=None`. -/
structure OpenApiOperationRequest where
  required : Bool
  content : List (String × Value)

def OpenApiOperationRequest.init : OpenApiOperationRequest :=
  { required := true, content := [] }

def OpenApiOperationRequest.fixed_fields : List String :=
  ["description", "required", "content"]

def OpenApiOperationRequest.toNode (rb : OpenApiOperationRequest) : Value :=
  Value.node OpenApiOperationRequest.fixed_fields
    [("description", Value.null), ("required", Value.bool rb.required),
     ("content", Value.vdict rb.content)]

/-- The content entry written by `add_schema_content`:
`{'schema': {"$ref": "#/components/schemas/" + schema_name}}`, with an
`examples` key added when a truthy `examples` argument is given. -/
def schema_content_entry (schema_name : String) (examples : Option Value) : Value :=
  let base := [("schema",
    Value.vdict [("$ref", Value.str ("#/components/schemas/" ++ schema_name))])]
  match examples with
  | some e => if isTruthy e then Value.vdict (base ++ [("examples", e)]) else Value.vdict base
  | none => Value.vdict base

def OpenApiOperationRequest.add_schema_content (rb : OpenApiOperationRequest)
    (media_type schema_name : String) (examples : Option Value) : OpenApiOperationRequest :=
  { rb with content := dupdate rb.content media_type (schema_content_entry schema_name examples) }

/-- `OpenApiOperationResponse.__init__`: note the source assigns the
`headers` argument to an attribute named `header`, so the declared fixed
field `headers` is never set. -/
structure OpenApiOperationResponse where
  description : String
  header : List (String × Value)
  content : List (String × Value)
  links : List (String × Value)

def OpenApiOperationResponse.init (description : String) : OpenApiOperationResponse :=
  { description := description, header := [], content := [], links := [] }

def OpenApiOperationResponse.fixed_fields : List String :=
  ["description", "headers", "content", "links"]

def OpenApiOperationResponse.toNode (r : OpenApiOperationResponse) : Value :=
  Value.node OpenApiOperationResponse.fixed_fields
    [("description", Value.str r.description), ("header", Value.vdict r.header),
     ("content", Value.vdict r.content), ("links", Value.vdict r.links)]

def OpenApiOperationResponse.add_schema_content (r : OpenApiOperationResponse)
    (media_type schema_name : String) (examples : Option Value) : OpenApiOperationResponse :=
  { r with content := dupdate r.content media_type (schema_content_entry schema_name examples) }

/-- `OpenApiOperationSeucirty` (typo preserved from the source): overrides
`dict` to produce `{self.name: self.scopes}`. -/
structure OpenApiOperationSeucirty where
  name : String
  scopes : List Value

def OpenApiOperationSeucirty.dictV (s : OpenApiOperationSeucirty) : Value :=
  Value.vdict [(s.name, Value.vlist s.scopes)]

/-- `OpenApiOperation.__init__`: the fields this module ever assigns; the
remaining attributes stay `None` (`deprecated` is `False`, a set value). -/
structure OpenApiOperation where
  tags : List String
  parameters : List OpenApiOperationParameter
  requestBody : Option OpenApiOperationRequest
  responses : List (String × OpenApiOperationResponse)
  security : List OpenApiOperationSeucirty

def OpenApiOperation.init : OpenApiOperation :=
  { tags := [], parameters := [], requestBody := none, responses := [], security := [] }

def OpenApiOperation.fixed_fields : List String :=
  ["tags", "consumes", "produces", "summary", "description", "externalDocs",
   "operationId", "parameters", "requestBody", "responses", "callbacks",
   "deprecated", "security", "servers"]

def OpenApiOperation.toNode (op : OpenApiOperation) : Value :=
  Value.node OpenApiOperation.fixed_fields
    [("tags", Value.vlist (op.tags.map Value.str)),
     ("summary", Value.null), ("description", Value.null),
     ("externalDocs", Value.null), ("operationId", Value.null),
     ("parameters", Value.vlist (op.parameters.map OpenApiOperationParameter.toNode)),
     ("requestBody", match op.requestBody with
       | none => Value.null
       | some rb => rb.toNode),
     ("responses", Value.vdict (op.responses.map (fun p => (p.1, p.2.toNode)))),
     ("callbacks", Value.null), ("deprecated", Value.bool false),
     ("security", Value.vlist (op.security.map OpenApiOperationSeucirty.dictV)),
     ("servers", Value.null), ("consumes", Value.null), ("produces", Value.null)]

def OpenApiOperation.add_parameters (op : OpenApiOperation)
    (p : OpenApiOperationParameter) : OpenApiOperation :=
  { op with parameters := op.parameters ++ [p] }

def OpenApiOperation.add_response (op : OpenApiOperation) (status_code : Nat)
    (r : OpenApiOperationResponse) : OpenApiOperation :=
  { op with responses := dupdate op.responses (toString status_code) r }

def OpenApiOperation.add_security (op : OpenApiOperation)
    (s : OpenApiOperationSeucirty) : OpenApiOperation :=
  { op with security := op.security ++ [s] }

def OpenApiOperation.set_request_body (op : OpenApiOperation)
    (rb : OpenApiOperationRequest) : OpenApiOperation :=
  { op with requestBody := some rb }

/-- `OpenApiPath`: the eight HTTP method attributes are set dynamically via
`add_operation` (`setattr`); the five other declared fields stay `None`. -/
def OpenApiPath.operations : List String :=
  ["get", "put", "post", "delete", "options", "head", "patch", "trace"]

structure OpenApiPath where
  ops : List (String × OpenApiOperation)

def OpenApiPath.fixed_fields : List String :=
  OpenApiPath.operations ++ ["ref", "summary", "description", "servers", "parameters"]

def OpenApiPath.toNode (p : OpenApiPath) : Value :=
  Value.node OpenApiPath.fixed_fields
    (p.ops.map (fun q => (q.1, q.2.toNode)) ++
     [("ref", Value.null), ("summary", Value.null), ("description", Value.null),
      ("servers", Value.null), ("parameters", Value.null)])

def OpenApiPath.add_operation (p : OpenApiPath) (method : String)
    (op : OpenApiOperation) : OpenApiPath :=
  { ops := dupdate p.ops method op }

/-- `OpenApiPaths`: a dict of url → path item, with an overridden `dict`
that serializes each path item. -/
structure OpenApiPaths where
  paths : List (String × OpenApiPath)

def OpenApiPaths.add_path (ps : OpenApiPaths) (url : String) (p : OpenApiPath) : OpenApiPaths :=
  { paths := dupdate ps.paths url p }

def OpenApiPaths.dictV (ps : OpenApiPaths) : Value :=
  Value.vdict (ps.paths.map (fun q => (q.1, serField q.2.toNode)))

/-- `OpenApiData.__init__` as invoked by `get_openapi_data`: `openapi` is
always `"3.0.3"`, `servers`/`externalDocs` stay `None`, `security` and
`tags` are empty lists.  The `paths` attribute holds the `OpenApiPaths`
object, whose overridden `dict` is applied during serialization; we store
its already-serialized dict, which the generic serializer passes through
unchanged. -/
structure OpenApiData where
  openapi : String
  info : OpenApiInfo
  paths : OpenApiPaths
  components : OpenApiComponents

def OpenApiData.fixed_fields : List String :=
  ["openapi", "info", "servers", "paths", "components", "security", "tags",
   "externalDocs"]

def OpenApiData.toNode (d : OpenApiData) : Value :=
  Value.node OpenApiData.fixed_fields
    [("openapi", Value.str d.openapi), ("info", d.info.toNode),
     ("servers", Value.null), ("paths", d.paths.dictV),
     ("components", d.components.toNode),
     ("security", Value.vlist []), ("tags", Value.vlist []),
     ("externalDocs", Value.null)]

/-- Annotation types seen by the module.  `plain id isBaseModel` models an
ordinary class (`issubclass(·, BaseModel)` given by the flag); `form id
isBaseModel inner` models a `starlette_pydantic.BaseForm` subclass, whose
`model_cls` attribute is `inner`.  Modelled from the spec: the form-wrapper
convention of the external `starlette_pydantic` collaborator — a `BaseForm`
subclass wraps exactly one inner model type, exposed as `model_cls`; other
classes have no `model_cls` attribute (accessing it raises). -/
inductive Ty where
  | plain : Nat → Bool → Ty
  | form : Nat → Bool → Ty → Ty
deriving DecidableEq

def Ty.isBaseModel : Ty → Bool
  | Ty.plain _ b => b
  | Ty.form _ b _ => b

def Ty.isBaseForm : Ty → Bool
  | Ty.plain _ _ => false
  | Ty.form _ _ _ => true

def Ty.model_cls : Ty → Option Ty
  | Ty.plain _ _ => none
  | Ty.form _ _ inner => some inner

/-- The `auth_dict` descriptor attached to a handler by the external
authentication decorator.  `auth_require` and `token_url` record the
truthiness of `auth_dict.get(...)`; `name` and `auth_type` are the values at
the keys `'name'` and `'auth_type'` (`none` models a missing key, so that
`auth_dict['name']` raises `KeyError`). -/
structure AuthDict where
  auth_require : Bool
  name : Option String
  token_url : Bool
  auth_type : Option Value

/-- A handler method of a `PydanticEndpoint` subclass: its `__annotations__`
in declared order, plus the optional `auth_dict` attribute. -/
structure Handler where
  annotations : List (String × Ty)
  auth_dict : Option AuthDict

/-- A `PydanticEndpoint` subclass: its `tags` list and its handler methods
keyed by lowercase HTTP verb (`hasattr(endpoint, method)` is membership). -/
structure PydEndpoint where
  tags : List String
  handlers : List (String × Handler)

/-- A route's endpoint: either a `PydanticEndpoint` subclass or anything else
(such as the bound method `OpenApi.get_openapi_data` registered for the
document route), which `is_pydantic_endpoint` rejects. -/
inductive Endpoint where
  | pyd : PydEndpoint → Endpoint
  | plain : Endpoint

/-- `OpenApi.is_pydantic_endpoint`. -/
def is_pydantic_endpoint : Endpoint → Bool
  | Endpoint.pyd _ => true
  | Endpoint.plain => false

/-- A Starlette route: literal path, path-parameter names
(`route.param_convertors` keys) and endpoint. -/
structure Route where
  path : String
  param_convertors : List String
  endpoint : Endpoint

/-- Python `set.add` on the collected model set, modelled as an
insertion-ordered duplicate-free list. -/
def add_model (acc : List Ty) (t : Ty) : List Ty :=
  if t ∈ acc then acc else acc ++ [t]

/-- The body of the annotation loop of `get_models_name`: two independent
`issubclass` checks; a `BaseForm` annotation contributes its `model_cls`
(raising — `none` — if the attribute is missing). -/
def collect_from_ann (acc : List Ty) (ann : Ty) : Option (List Ty) :=
  let acc1 := if ann.isBaseModel then add_model acc ann else acc
  if ann.isBaseForm then
    match ann.model_cls with
    | none => none
    | some c => some (add_model acc1 c)
  else
    some acc1

def collect_handler (acc : List Ty) : List (String × Ty) → Option (List Ty)
  | [] => some acc
  | (_, ann) :: rest =>
    match collect_from_ann acc ann with
    | none => none
    | some acc2 => collect_handler acc2 rest

/-- The method loop of `get_models_name` for one endpoint: methods are probed
in the fixed `OpenApiPath.operations` order. -/
def collect_endpoint (e : PydEndpoint) (acc : List Ty) (methods : List String) : Option (List Ty) :=
  match methods with
  | [] => some acc
  | m :: rest =>
    match alookup e.handlers m with
    | none => collect_endpoint e acc rest
    | some h =>
      match collect_handler acc h.annotations with
      | none => none
      | some acc2 => collect_endpoint e acc2 rest

/-- The route loop of `get_models_name`: non-pydantic endpoints are skipped. -/
def collect_models : List Route → List Ty → Option (List Ty)
  | [], acc => some acc
  | r :: rest, acc =>
    match r.endpoint with
    | Endpoint.plain => collect_models rest acc
    | Endpoint.pyd e =>
      match collect_endpoint e acc OpenApiPath.operations with
      | none => none
      | some acc2 => collect_models rest acc2

/-- Modelled from the spec: `pydantic.schema.get_model_name_map` assigns each
collected model a unique display name, resolving collisions
deterministically.  We assign names by position in the collected list, which
is injective on a duplicate-free list. -/
def assign_names_from (i : Nat) : List Ty → List (Ty × String)
  | [] => []
  | t :: rest => (t, "Model_" ++ toString i) :: assign_names_from (i + 1) rest

def assign_names (models : List Ty) : List (Ty × String) :=
  assign_names_from 0 models

/-- `OpenApi.get_models_name`: collect every `BaseModel` annotation and the
`model_cls` of every `BaseForm` annotation across all pydantic routes, then
name them. -/
def get_models_name (routes : List Route) : Option (List (Ty × String)) :=
  match collect_models routes [] with
  | none => none
  | some models => some (assign_names models)

/-- The per-request/security mutable state of the `OpenApi` instance that the
build threads through `get_openapi_operation`. -/
structure BuildSt where
  securitySchemas_index : List (String × AuthDict)
  token_url : Option String

/-- One iteration of the annotation loop of `get_openapi_operation`:
dispatch on the annotation name (`return`, `body`, `form`, path parameter,
query parameter).  `none` models the `KeyError`/`AttributeError` raised when
a referenced type has no assigned name or no `model_cls`. -/
def classify_ann (models_name : List (Ty × String)) (route : Route)
    (op : OpenApiOperation) (ann_name : String) (ann : Ty) : Option OpenApiOperation :=
  if ann_name = "return" then
    match alookup models_name ann with
    | none => none
    | some sn =>
      let response := OpenApiOperationResponse.init "Success Response"
      let response := response.add_schema_content "application/json" sn none
      some (op.add_response 200 response)
  else if ann_name = "body" then
    match alookup models_name ann with
    | none => none
    | some sn =>
      let request_body := OpenApiOperationRequest.init
      let request_body := request_body.add_schema_content "application/json" sn none
      some (op.set_request_body request_body)
  else if ann_name = "form" then
    match ann.model_cls with
    | none => none
    | some inner =>
      match alookup models_name inner with
      | none => none
      | some sn =>
        let request_body := OpenApiOperationRequest.init
        let request_body := request_body.add_schema_content "multipart/form-data" sn none
        some (op.set_request_body request_body)
  else if ann_name ∈ route.param_convertors then
    some (op.add_parameters { name := ann_name, location_in := "path", required := true })
  else
    some (op.add_parameters { name := ann_name, location_in := "query", required := false })

def classify_anns (models_name : List (Ty × String)) (route : Route) :
    List (String × Ty) → OpenApiOperation → Option OpenApiOperation
  | [], op => some op
  | (n, t) :: rest, op =>
    match classify_ann models_name route op n t with
    | none => none
    | some op2 => classify_anns models_name route rest op2

/-- The `auth_dict` block at the end of `get_openapi_operation`: a truthy
`auth_require` attaches a security requirement and registers the scheme
(deduplicated by name); otherwise a truthy `token_url` records the route's
path; in every case the descriptor is deleted from the handler. -/
def process_auth (h : Handler) (route : Route) (op : OpenApiOperation) (st : BuildSt) :
    Option (OpenApiOperation × Handler × BuildSt) :=
  match h.auth_dict with
  | none => some (op, h, st)
  | some ad =>
    if ad.auth_require then
      match ad.name with
      | none => none
      | some nm =>
        let op := op.add_security { name := nm, scopes := [] }
        let st :=
          if (alookup st.securitySchemas_index nm).isSome then st
          else { st with securitySchemas_index := st.securitySchemas_index ++ [(nm, ad)] }
        some (op, { h with auth_dict := none }, st)
    else if ad.token_url then
      some (op, { h with auth_dict := none }, { st with token_url := some route.path })
    else
      some (op, { h with auth_dict := none }, st)

/-- `OpenApi.get_openapi_operation`: `operation.tags` comes from the
endpoint's `tags`; then the annotation loop; then the `auth_dict` block. -/
def get_openapi_operation (models_name : List (Ty × String)) (h : Handler)
    (route : Route) (tags : List String) (st : BuildSt) :
    Option (OpenApiOperation × Handler × BuildSt) :=
  match classify_anns models_name route h.annotations { OpenApiOperation.init with tags := tags } with
  | none => none
  | some op => process_auth h route op st

/-- The method loop of `OpenApi.get_openapi_path`: methods in the fixed
order; consumed descriptors are written back into the endpoint (the deletion
of `handler.auth_dict` mutates the handler in place). -/
def path_methods (models_name : List (Ty × String)) (route : Route) :
    List String → OpenApiPath → PydEndpoint → BuildSt →
    Option (OpenApiPath × PydEndpoint × BuildSt)
  | [], p, e, st => some (p, e, st)
  | m :: rest, p, e, st =>
    match alookup e.handlers m with
    | none => path_methods models_name route rest p e st
    | some h =>
      match get_openapi_operation models_name h route e.tags st with
      | none => none
      | some (op, h2, st2) =>
        path_methods models_name route rest (p.add_operation m op)
          { e with handlers := dupdate e.handlers m h2 } st2

def get_openapi_path (models_name : List (Ty × String)) (route : Route)
    (e : PydEndpoint) (st : BuildSt) : Option (OpenApiPath × PydEndpoint × BuildSt) :=
  path_methods models_name route OpenApiPath.operations { ops := [] } e st

/-- `OpenApi.get_openapi_paths`: walk the route table, keep pydantic
endpoints, and index the path items by literal route path.  Returns the
(possibly mutated) route table alongside. -/
def get_openapi_paths (models_name : List (Ty × String)) :
    List Route → OpenApiPaths → BuildSt →
    Option (OpenApiPaths × List Route × BuildSt)
  | [], ps, st => some (ps, [], st)
  | r :: rest, ps, st =>
    match r.endpoint with
    | Endpoint.plain =>
      match get_openapi_paths models_name rest ps st with
      | none => none
      | some (ps2, rest2, st2) => some (ps2, r :: rest2, st2)
    | Endpoint.pyd e =>
      match get_openapi_path models_name r e st with
      | none => none
      | some (p, e2, st2) =>
        match get_openapi_paths models_name rest (ps.add_path r.path p) st2 with
        | none => none
        | some (ps3, rest3, st3) =>
          some (ps3, { r with endpoint := Endpoint.pyd e2 } :: rest3, st3)

/-- Modelled from the spec: `pydantic.schema.schema(model_list)['definitions']`
returns a JSON-Schema body for each listed model, keyed by its assigned
display name; the body contents belong to the external delegate and are
abstracted to a stub object. -/
def schema_definitions (models_name : List (Ty × String)) : List (String × Value) :=
  models_name.map (fun p => (p.2, Value.vdict [("title", Value.str p.2)]))

/-- The OAuth2 flows object written by `get_openapi_components`:
`{"password": {"scopes": {}, "tokenUrl": self.token_url}}`. -/
def password_flows (token_url : Option String) : Value :=
  Value.vdict [("password", Value.vdict
    [("scopes", Value.vdict []), ("tokenUrl", optStr token_url)])]

def build_security_schemas (token_url : Option String) :
    List (String × AuthDict) → Option (List (String × OpenApiSecuritySchema))
  | [] => some []
  | (nm, ad) :: rest =>
    match ad.auth_type with
    | none => none
    | some ty =>
      match build_security_schemas token_url rest with
      | none => none
      | some rest2 => some ((nm, { type := ty, flows := password_flows token_url }) :: rest2)

/-- `OpenApi.get_openapi_components`: the schema dictionary plus one security
scheme per accumulated descriptor, each carrying the recorded token URL. -/
def get_openapi_components (models_name : List (Ty × String)) (st : BuildSt) :
    Option OpenApiComponents :=
  match build_security_schemas st.token_url st.securitySchemas_index with
  | none => none
  | some schemes => some { schemas := schema_definitions models_name, securitySchemes := schemes }

/-- The `OpenApi` instance state: constructor arguments plus the mutable
fields.  `delegateCalls` is ghost instrumentation counting invocations of the
external schema delegate (one per document build), as the spec's idempotent
caching property is stated in terms of call counts. -/
structure OpenApi where
  title : String
  description : Option String
  api_url : String
  version : String
  api_schemas : Option Value
  securitySchemas_index : List (String × AuthDict)
  token_url : Option String
  models_name : Option (List (Ty × String))
  delegateCalls : Nat

/-- `OpenApi.__init__` state (before the document route is registered on the
application): no cache, empty security index, no token URL. -/
def OpenApi.init (title : String) (description : Option String)
    (api_url : String) (version : String) : OpenApi :=
  { title := title, description := description, api_url := api_url,
    version := version, api_schemas := none, securitySchemas_index := [],
    token_url := none, models_name := none, delegateCalls := 0 }

/-- `self.app.add_route(self.api_url, self.get_openapi_data, ...)`: the
document route is appended to the application's route table; its endpoint is
a bound method, not a `PydanticEndpoint` subclass. -/
def OpenApi.register (routes : List Route) (api_url : String) : List Route :=
  routes ++ [{ path := api_url, param_convertors := [], endpoint := Endpoint.plain }]

/-- The body of the `if not self.api_schemas` branch of
`OpenApi.get_openapi_data`: the full document build.  Returns the updated
instance state, the (mutated) route table, the assembled document object and
its serialized dict.  `none` models an exception escaping to the caller. -/
def run_build (o : OpenApi) (routes : List Route) :
    Option (OpenApi × List Route × OpenApiData × Value) :=
  match get_models_name routes with
  | none => none
  | some mn =>
    let info : OpenApiInfo := { title := o.title, description := o.description, version := o.version }
    match get_openapi_paths mn routes { paths := [] }
        { securitySchemas_index := o.securitySchemas_index, token_url := o.token_url } with
    | none => none
    | some (paths, routes2, st2) =>
      match get_openapi_components mn st2 with
      | none => none
      | some components =>
        let data : OpenApiData :=
          { openapi := "3.0.3", info := info, paths := paths, components := components }
        let doc := serField data.toNode
        some ({ o with models_name := some mn,
                       securitySchemas_index := st2.securitySchemas_index,
                       token_url := st2.token_url,
                       api_schemas := some doc,
                       delegateCalls := o.delegateCalls + 1 },
              routes2, data, doc)

/-- Truthiness of `self.api_schemas` (`None` or a dict). -/
def truthyCache : Option Value → Bool
  | none => false
  | some d => isTruthy d

/-- `OpenApi.get_openapi_data`: serve the cached document if it is truthy,
otherwise run the full build and serve its result.  The response is a
`JSONResponse` (status 200) of `self.api_schemas`; `none` models a build
exception propagating to the HTTP layer. -/
def get_openapi_data (o : OpenApi) (routes : List Route) :
    OpenApi × List Route × Option (Nat × Value) :=
  if truthyCache o.api_schemas then
    (o, routes, (o.api_schemas.map (fun d => (200, d))))
  else
    match run_build o routes with
    | none => (o, routes, none)
    | some (o2, routes2, _, doc) => (o2, routes2, some (200, doc))

/-! ### Serializer characterization -/

theorem alookup_dupdate {β : Type} (l : List (String × β)) (k : String) (v : β) (q : String) :
    alookup (dupdate l k v) q = if q = k then some v else alookup l q := by
  induction l with
  | nil =>
    by_cases h : q = k
    · subst h; simp [dupdate, alookup]
    · simp [dupdate, alookup, h]
      exact fun hh => h hh.symm
  | cons p rest ih =>
    obtain ⟨a, b⟩ := p
    by_cases h1 : a = k <;> by_cases h2 : q = k <;> by_cases h3 : a = q <;>
      simp_all [dupdate, alookup]

/-- The value of the last field in `fs` whose renamed name is `k` and which is
set; under Python dict-assignment semantics this is the value the serializer
leaves at key `k`. -/
def lastSet (attrs : List (String × Value)) : List String → String → Option Value
  | [], _ => none
  | f :: rest, k =>
    match lastSet attrs rest k with
    | some v => some v
    | none => if rename_field f = k then set_value attrs f else none

/-- Characterization of the serializer's output dict: what `OpenApiObj.dict`
leaves at key `k` is the serialization of the last set field renaming to `k`,
else whatever the accumulated result already holds. -/
theorem dictFields_alookup (attrs : List (String × Value)) (fs : List String)
    (result : List (String × Value)) (k : String) :
    alookup (dictFields attrs fs result) k =
      match lastSet attrs fs k with
      | some v => some (serField v)
      | none => alookup result k := by
  induction fs generalizing result with
  | nil => simp [dictFields, lastSet]
  | cons f rest ih =>
    simp only [dictFields]
    split
    next h =>
      rw [ih]
      cases hls : lastSet attrs rest k with
      | some w => simp [lastSet, hls]
      | none =>
        by_cases hk : rename_field f = k <;> simp [lastSet, hls, hk, h]
    next v h =>
      rw [ih]
      cases hls : lastSet attrs rest k with
      | some w => simp [lastSet, hls]
      | none =>
        by_cases hk : rename_field f = k
        · simp [lastSet, hls, hk, h, alookup_dupdate]
        · simp [lastSet, hls, hk, h, alookup_dupdate]
          exact fun hh => absurd hh.symm hk

theorem serList_eq_map (xs : List Value) : serList xs = xs.map serElem := by
  induction xs with
  | nil => simp [serList]
  | cons v vs ih => simp [serList, ih]

theorem serPairs_eq_map (kvs : List (String × Value)) :
    serPairs kvs = kvs.map (fun p => (p.1, serElem p.2)) := by
  induction kvs with
  | nil => simp [serPairs]
  | cons p rest ih => obtain ⟨k, v⟩ := p; simp [serPairs, ih]

theorem lastSet_isSome_iff (attrs : List (String × Value)) (fs : List String) (k : String) :
    (lastSet attrs fs k).isSome ↔
      ∃ f, f ∈ fs ∧ rename_field f = k ∧ (set_value attrs f).isSome := by
  induction fs with
  | nil => simp [lastSet]
  | cons f rest ih =>
    simp only [lastSet]
    cases hls : lastSet attrs rest k with
    | some w =>
      simp only [Option.isSome_some, true_iff]
      have hex := ih.mp (by rw [hls]; rfl)
      obtain ⟨f2, hf2, hr2, hs2⟩ := hex
      exact ⟨f2, List.mem_cons_of_mem f hf2, hr2, hs2⟩
    | none =>
      by_cases hk : rename_field f = k
      · simp only [hk, if_pos rfl]
        constructor
        · intro hs
          exact ⟨f, List.mem_cons_self f rest, hk, hs⟩
        · rintro ⟨f2, hf2, hr2, hs2⟩
          rcases List.mem_cons.mp hf2 with he | hm
          · subst he; exact hs2
          · have := ih.mpr ⟨f2, hm, hr2, hs2⟩
            rw [hls] at this; cases this
      · simp only [if_neg hk, Option.isSome_none, Bool.false_eq_true, false_iff]
        rintro ⟨f2, hf2, hr2, hs2⟩
        rcases List.mem_cons.mp hf2 with he | hm
        · subst he; exact hk hr2
        · have := ih.mpr ⟨f2, hm, hr2, hs2⟩
          rw [hls] at this; cases this

theorem lastSet_eq_none_of_not_mem (attrs : List (String × Value)) (fs : List String)
    (k : String) (h : k ∉ fs.map rename_field) : lastSet attrs fs k = none := by
  induction fs with
  | nil => simp [lastSet]
  | cons f rest ih =>
    simp only [List.map_cons, List.mem_cons, not_or] at h
    simp only [lastSet, ih h.2]
    rw [if_neg (fun hh => h.1 hh.symm)]

theorem lastSet_nodup (attrs : List (String × Value)) (fs : List String) (f : String)
    (v : Value) (hnd : (fs.map rename_field).Nodup) (hf : f ∈ fs)
    (hs : set_value attrs f = some v) : lastSet attrs fs (rename_field f) = some v := by
  induction fs with
  | nil => cases hf
  | cons g rest ih =>
    simp only [List.map_cons, List.nodup_cons] at hnd
    rcases List.mem_cons.mp hf with he | hm
    · subst he
      rw [lastSet, lastSet_eq_none_of_not_mem attrs rest (rename_field f) hnd.1]
      simp [hs]
    · rw [lastSet, ih hnd.2 hm]

theorem rename_field_ne_ref (f : String) :
    rename_field f ≠ "ref" ∧ rename_field f ≠ "location_in" := by
  unfold rename_field
  split_ifs with h1 h2
  · constructor <;> decide
  · constructor <;> decide
  · exact ⟨h1, h2⟩

theorem nodup_map_inj {fs : List String} (hnd : (fs.map rename_field).Nodup)
    {f g : String} (hf : f ∈ fs) (hg : g ∈ fs)
    (he : rename_field f = rename_field g) : f = g := by
  induction fs with
  | nil => cases hf
  | cons a rest ih =>
    simp only [List.map_cons, List.nodup_cons] at hnd
    rcases List.mem_cons.mp hf with rfl | hf2 <;> rcases List.mem_cons.mp hg with rfl | hg2
    · rfl
    · exact absurd (he ▸ List.mem_map_of_mem rename_field hg2) hnd.1
    · exact absurd (he ▸ List.mem_map_of_mem rename_field hf2) hnd.1
    · exact ih hnd.2 hf2 hg2

/-- C2: `OpenApiObj.dict` emits a key for a declared field if and only if the
field is set — an unset (missing or `None`) field contributes no key, while a
set falsy value (`False`, `0`, `[]`, `{}`) still contributes its key with its
serialized value — and set values are serialized recursively for nodes,
lists of nodes and dicts of nodes, and passed through unchanged otherwise. -/
theorem C2_field_omission (fs : List String) (attrs : List (String × Value))
    (hnd : (fs.map rename_field).Nodup) :
    (∀ f, f ∈ fs →
      ((alookup (dictFields attrs fs []) (rename_field f)).isSome
        ↔ (set_value attrs f).isSome))
    ∧ (∀ f v, f ∈ fs → set_value attrs f = some v →
        alookup (dictFields attrs fs []) (rename_field f) = some (serField v))
    ∧ (∀ k, (alookup (dictFields attrs fs []) k).isSome →
        ∃ f, f ∈ fs ∧ rename_field f = k ∧ (set_value attrs f).isSome)
    ∧ (∀ nfs nattrs, serField (Value.node nfs nattrs) = Value.vdict (dictFields nattrs nfs []))
    ∧ (∀ xs, serField (Value.vlist xs) = Value.vlist (xs.map serElem))
    ∧ (∀ kvs, serField (Value.vdict kvs) = Value.vdict (kvs.map (fun p => (p.1, serElem p.2))))
    ∧ serField Value.null = Value.null
    ∧ (∀ b, serField (Value.bool b) = Value.bool b)
    ∧ (∀ n, serField (Value.int n) = Value.int n)
    ∧ (∀ s, serField (Value.str s) = Value.str s) := by
  refine ⟨?_, ?_, ?_, ?_, ?_, ?_, ?_, ?_, ?_, ?_⟩
  · intro f hf
    rw [dictFields_alookup]
    constructor
    · intro hk
      cases hls : lastSet attrs fs (rename_field f) with
      | none => rw [hls] at hk; simp [alookup] at hk
      | some w =>
        have hex := (lastSet_isSome_iff attrs fs (rename_field f)).mp (by rw [hls]; rfl)
        obtain ⟨f2, hf2, hr2, hs2⟩ := hex
        have : f2 = f := nodup_map_inj hnd hf2 hf hr2
        subst this
        exact hs2
    · intro hs
      cases hsv : set_value attrs f with
      | none => rw [hsv] at hs; cases hs
      | some v =>
        rw [lastSet_nodup attrs fs f v hnd hf hsv]
        rfl
  · intro f v hf hsv
    rw [dictFields_alookup, lastSet_nodup attrs fs f v hnd hf hsv]
  · intro k hk
    rw [dictFields_alookup] at hk
    cases hls : lastSet attrs fs k with
    | none => rw [hls] at hk; simp [alookup] at hk
    | some w =>
      exact (lastSet_isSome_iff attrs fs k).mp (by rw [hls]; rfl)
  · intro nfs nattrs; simp [serField]
  · intro xs; simp [serField, serList_eq_map]
  · intro kvs; simp [serField, serPairs_eq_map]
  · simp [serField]
  · intro b; simp [serField]
  · intro n; simp [serField]
  · intro s; simp [serField]

/-- Witness for C2 at a concrete node: field list `["name", "x"]`, where
`name` is set to the falsy `False` (key still emitted, value passed through)
and `x` is unset (no key at all). -/
theorem C2_field_omission_witness :
    ((["name", "x"].map rename_field).Nodup
      ∧ set_value [("name", Value.bool false)] "name" = some (Value.bool false))
    ∧ alookup (dictFields [("name", Value.bool false)] ["name", "x"] []) "name"
        = some (Value.bool false)
    ∧ alookup (dictFields [("name", Value.bool false)] ["name", "x"] []) "x" = none := by
  have h := C2_field_omission ["name", "x"] [("name", Value.bool false)] (by decide)
  refine ⟨⟨by decide, by rfl⟩, ?_, ?_⟩
  · have h2 := h.2.1 "name" (Value.bool false) (by simp) (by rfl)
    have h3 : rename_field "name" = "name" := by decide
    rw [h3] at h2
    rw [h2]
    simp [serField]
  · have h4 := h.2.2.1 "x"
    cases hx : alookup (dictFields [("name", Value.bool false)] ["name", "x"] []) "x" with
    | none => rfl
    | some w =>
      have hex := h4 (by rw [hx]; rfl)
      obtain ⟨f, hf, hr, hs⟩ := hex
      have hne : f = "name" ∨ f = "x" := by simpa using hf
      rcases hne with rfl | rfl
      · have hrn : rename_field "name" = "name" := by decide
        rw [hrn] at hr
        simp at hr
      · have hsx : set_value [("name", Value.bool false)] "x" = none := by rfl
        rw [hsx] at hs
        simp at hs

/-- C3: the serializer emits the internal field `ref` under the literal key
`$ref` and the internal field `location_in` under the literal key `in`; the
keys `ref` and `location_in` never appear in any serialized node. -/
theorem C3_rename_correctness (fs : List String) (attrs : List (String × Value)) :
    alookup (dictFields attrs fs []) "ref" = none
    ∧ alookup (dictFields attrs fs []) "location_in" = none
    ∧ ((fs.map rename_field).Nodup → ∀ v, "ref" ∈ fs →
        set_value attrs "ref" = some v →
        alookup (dictFields attrs fs []) "$ref" = some (serField v))
    ∧ ((fs.map rename_field).Nodup → ∀ v, "location_in" ∈ fs →
        set_value attrs "location_in" = some v →
        alookup (dictFields attrs fs []) "in" = some (serField v)) := by
  refine ⟨?_, ?_, ?_, ?_⟩
  · rw [dictFields_alookup, lastSet_eq_none_of_not_mem]
    · simp [alookup]
    · intro hm
      obtain ⟨f, _, hf⟩ := List.mem_map.mp hm
      exact (rename_field_ne_ref f).1 hf
  · rw [dictFields_alookup, lastSet_eq_none_of_not_mem]
    · simp [alookup]
    · intro hm
      obtain ⟨f, _, hf⟩ := List.mem_map.mp hm
      exact (rename_field_ne_ref f).2 hf
  · intro hnd v hf hs
    have h := lastSet_nodup attrs fs "ref" v hnd hf hs
    have hr : rename_field "ref" = "$ref" := by decide
    rw [hr] at h
    rw [dictFields_alookup, h]
  · intro hnd v hf hs
    have h := lastSet_nodup attrs fs "location_in" v hnd hf hs
    have hr : rename_field "location_in" = "in" := by decide
    rw [hr] at h
    rw [dictFields_alookup, h]

/-- Witness for C3: serializing a node whose `ref` field holds
`"#/components/schemas/Foo"` yields exactly `$ref` at that value, and a
parameter-style node with `location_in = "query"` yields the key `in`. -/
theorem C3_rename_correctness_witness :
    dictFields [("ref", Value.str "#/components/schemas/Foo")] ["ref"] []
      = [("$ref", Value.str "#/components/schemas/Foo")]
    ∧ alookup (dictFields [("location_in", Value.str "query")] ["name", "location_in"] []) "in"
        = some (Value.str "query")
    ∧ alookup (dictFields [("location_in", Value.str "query")] ["name", "location_in"] []) "location_in"
        = none := by
  refine ⟨?_, ?_, ?_⟩
  · simp [dictFields, set_value, alookup, rename_field, dupdate, serField]
  · have h := (C3_rename_correctness ["name", "location_in"]
      [("location_in", Value.str "query")]).2.2.2
    have h2 := h (by decide) (Value.str "query") (by simp) (by rfl)
    rw [h2]
    simp [serField]
  · exact (C3_rename_correctness ["name", "location_in"]
      [("location_in", Value.str "query")]).2.1

/-! ### Operation extractor characterization -/

theorem dupdate_dupdate {β : Type} (l : List (String × β)) (k : String) (v w : β) :
    dupdate (dupdate l k v) k w = dupdate l k w := by
  induction l with
  | nil => simp [dupdate]
  | cons p rest ih =>
    by_cases h : p.1 = k <;> simp [dupdate, h, ih]

/-- The annotation names with a dedicated meaning in the annotation loop of
`get_openapi_operation`. -/
def special_ann (n : String) : Bool :=
  n = "return" || n = "body" || n = "form"

/-- The type attached to the last annotation with the given name (for a
Python `__annotations__` dict the names are unique, so this is the one
binding). -/
def last_ann : List (String × Ty) → String → Option Ty
  | [], _ => none
  | (m, t) :: rest, n =>
    match last_ann rest n with
    | some t2 => some t2
    | none => if m = n then some t else none

/-- The last request-body-bearing annotation (`body` or `form`), which is the
one whose `set_request_body` call survives. -/
def last_rb : List (String × Ty) → Option (String × Ty)
  | [] => none
  | (m, t) :: rest =>
    match last_rb rest with
    | some q => some q
    | none => if m = "body" ∨ m = "form" then some (m, t) else none

/-- The response entry created for a `return` annotation whose type has the
assigned name `sn`. -/
def success_response (sn : String) : OpenApiOperationResponse :=
  { description := "Success Response", header := [], links := [],
    content := [("application/json", schema_content_entry sn none)] }

theorem last_ann_none_iff (anns : List (String × Ty)) (n : String) :
    last_ann anns n = none ↔ n ∉ anns.map Prod.fst := by
  induction anns with
  | nil => simp [last_ann]
  | cons p rest ih =>
    obtain ⟨m, t⟩ := p
    simp only [last_ann, List.map_cons, List.mem_cons, not_or]
    cases hls : last_ann rest n with
    | some t2 =>
      simp only []
      constructor
      · intro hc; cases hc
      · rintro ⟨_, hm⟩
        exact absurd (ih.mpr hm) (by rw [hls]; simp)
    | none =>
      by_cases hm : m = n
      · subst hm
        simp
      · simp [hm, ih.mp hls]
        exact fun hh => hm hh.symm

theorem last_ann_of_nodup (anns : List (String × Ty)) (n : String) (t : Ty)
    (hnd : (anns.map Prod.fst).Nodup) (hm : (n, t) ∈ anns) :
    last_ann anns n = some t := by
  induction anns with
  | nil => cases hm
  | cons p rest ih =>
    obtain ⟨m, u⟩ := p
    simp only [List.map_cons, List.nodup_cons] at hnd
    rcases List.mem_cons.mp hm with he | hmem
    · simp only [Prod.mk.injEq] at he
      obtain ⟨he1, he2⟩ := he
      subst he1; subst he2
      have hnone : last_ann rest n = none :=
        (last_ann_none_iff rest n).mpr hnd.1
      simp [last_ann, hnone]
    · have := ih hnd.2 hmem
      simp [last_ann, this]

theorem last_ann_cons_ne (m : String) (t : Ty) (rest : List (String × Ty)) (n : String)
    (hm : m ≠ n) : last_ann ((m, t) :: rest) n = last_ann rest n := by
  simp only [last_ann]
  cases last_ann rest n with
  | some t2 => rfl
  | none => simp [hm]

theorem last_ann_cons_eq (n : String) (t : Ty) (rest : List (String × Ty)) :
    last_ann ((n, t) :: rest) n = some ((last_ann rest n).getD t) := by
  simp only [last_ann]
  cases last_ann rest n with
  | some t2 => rfl
  | none => simp

theorem last_rb_cons_not (m : String) (t : Ty) (rest : List (String × Ty))
    (hb : m ≠ "body") (hf : m ≠ "form") : last_rb ((m, t) :: rest) = last_rb rest := by
  simp only [last_rb]
  cases last_rb rest with
  | some q => rfl
  | none => simp [hb, hf]

theorem last_rb_cons_bf (m : String) (t : Ty) (rest : List (String × Ty))
    (h : m = "body" ∨ m = "form") : last_rb ((m, t) :: rest) = some ((last_rb rest).getD (m, t)) := by
  simp only [last_rb]
  cases last_rb rest with
  | some q => rfl
  | none => simp [h]

/-- Exhaustive description of one step of the annotation loop. -/
theorem classify_ann_cases (mn : List (Ty × String)) (route : Route)
    (op : OpenApiOperation) (n : String) (t : Ty) (op2 : OpenApiOperation)
    (h : classify_ann mn route op n t = some op2) :
    (n = "return" ∧ ∃ sn, alookup mn t = some sn ∧
        op2 = op.add_response 200
          ((OpenApiOperationResponse.init "Success Response").add_schema_content
            "application/json" sn none))
    ∨ (n = "body" ∧ ∃ sn, alookup mn t = some sn ∧
        op2 = op.set_request_body
          (OpenApiOperationRequest.init.add_schema_content "application/json" sn none))
    ∨ (n = "form" ∧ ∃ inner sn, t.model_cls = some inner ∧ alookup mn inner = some sn ∧
        op2 = op.set_request_body
          (OpenApiOperationRequest.init.add_schema_content "multipart/form-data" sn none))
    ∨ (special_ann n = false ∧ n ∈ route.param_convertors ∧
        op2 = op.add_parameters { name := n, location_in := "path", required := true })
    ∨ (special_ann n = false ∧ n ∉ route.param_convertors ∧
        op2 = op.add_parameters { name := n, location_in := "query", required := false }) := by
  unfold classify_ann at h
  by_cases h1 : n = "return"
  · simp only [if_pos h1] at h
    cases hlk : alookup mn t with
    | none => simp only [hlk] at h; cases h
    | some sn =>
      simp only [hlk] at h
      exact Or.inl ⟨h1, sn, rfl, (Option.some.inj h).symm⟩
  · simp only [if_neg h1] at h
    by_cases h2 : n = "body"
    · simp only [if_pos h2] at h
      cases hlk : alookup mn t with
      | none => simp only [hlk] at h; cases h
      | some sn =>
        simp only [hlk] at h
        exact Or.inr (Or.inl ⟨h2, sn, rfl, (Option.some.inj h).symm⟩)
    · simp only [if_neg h2] at h
      by_cases h3 : n = "form"
      · simp only [if_pos h3] at h
        cases hmc : t.model_cls with
        | none => simp only [hmc] at h; cases h
        | some inner =>
          simp only [hmc] at h
          cases hlk : alookup mn inner with
          | none => simp only [hlk] at h; cases h
          | some sn =>
            simp only [hlk] at h
            exact Or.inr (Or.inr (Or.inl ⟨h3, inner, sn, rfl, hlk, (Option.some.inj h).symm⟩))
      · simp only [if_neg h3] at h
        have hs : special_ann n = false := by
          simp [special_ann, h1, h2, h3]
        by_cases h4 : n ∈ route.param_convertors
        · simp only [if_pos h4] at h
          exact Or.inr (Or.inr (Or.inr (Or.inl ⟨hs, h4, (Option.some.inj h).symm⟩)))
        · simp only [if_neg h4] at h
          exact Or.inr (Or.inr (Or.inr (Or.inr ⟨hs, h4, (Option.some.inj h).symm⟩)))

/-- The parameter list that the annotation loop produces: non-special names
in declared order, classified as required path parameters or optional query
parameters. -/
def params_of (route : Route) (anns : List (String × Ty)) : List OpenApiOperationParameter :=
  (anns.filter (fun p => !special_ann p.1)).map (fun p =>
    if p.1 ∈ route.param_convertors then
      { name := p.1, location_in := "path", required := true }
    else
      { name := p.1, location_in := "query", required := false })

theorem classify_anns_tags_security (mn : List (Ty × String)) (route : Route) :
    ∀ (anns : List (String × Ty)) (op op2 : OpenApiOperation),
      classify_anns mn route anns op = some op2 →
      op2.tags = op.tags ∧ op2.security = op.security := by
  intro anns
  induction anns with
  | nil =>
    intro op op2 h
    simp only [classify_anns] at h
    cases h
    exact ⟨rfl, rfl⟩
  | cons p rest ih =>
    obtain ⟨m, t⟩ := p
    intro op op2 h
    simp only [classify_anns] at h
    cases hca : classify_ann mn route op m t with
    | none => simp only [hca] at h; cases h
    | some opm =>
      simp only [hca] at h
      have hmain := ih opm op2 h
      rcases classify_ann_cases mn route op m t opm hca with
        ⟨_, sn, _, rfl⟩ | ⟨_, sn, _, rfl⟩ | ⟨_, inner, sn, _, _, rfl⟩ | ⟨_, _, rfl⟩ | ⟨_, _, rfl⟩ <;>
        simp_all [OpenApiOperation.add_response, OpenApiOperation.set_request_body,
          OpenApiOperation.add_parameters]

theorem classify_anns_parameters (mn : List (Ty × String)) (route : Route) :
    ∀ (anns : List (String × Ty)) (op op2 : OpenApiOperation),
      classify_anns mn route anns op = some op2 →
      op2.parameters = op.parameters ++ params_of route anns := by
  intro anns
  induction anns with
  | nil =>
    intro op op2 h
    simp only [classify_anns] at h
    cases h
    simp [params_of]
  | cons p rest ih =>
    obtain ⟨m, t⟩ := p
    intro op op2 h
    simp only [classify_anns] at h
    cases hca : classify_ann mn route op m t with
    | none => simp only [hca] at h; cases h
    | some opm =>
      simp only [hca] at h
      have hmain := ih opm op2 h
      rcases classify_ann_cases mn route op m t opm hca with
        ⟨hm, sn, hsn, rfl⟩ | ⟨hm, sn, hsn, rfl⟩ | ⟨hm, inner, sn, hmc, hsn, rfl⟩ |
        ⟨hm, hmem, rfl⟩ | ⟨hm, hmem, rfl⟩
      · subst hm
        simpa [OpenApiOperation.add_response, params_of, special_ann] using hmain
      · subst hm
        simpa [OpenApiOperation.set_request_body, params_of, special_ann] using hmain
      · subst hm
        simpa [OpenApiOperation.set_request_body, params_of, special_ann] using hmain
      · rw [hmain]
        simp [OpenApiOperation.add_parameters, params_of, hm, hmem]
      · rw [hmain]
        simp [OpenApiOperation.add_parameters, params_of, hm, hmem]

theorem toString_200 : toString (200 : Nat) = "200" := by rfl

theorem add_schema_content_success (sn : String) :
    (OpenApiOperationResponse.init "Success Response").add_schema_content
      "application/json" sn none = success_response sn := by
  rfl

theorem classify_anns_responses (mn : List (Ty × String)) (route : Route) :
    ∀ (anns : List (String × Ty)) (op op2 : OpenApiOperation),
      classify_anns mn route anns op = some op2 →
      (last_ann anns "return" = none → op2.responses = op.responses)
      ∧ (∀ t2, last_ann anns "return" = some t2 → ∃ sn, alookup mn t2 = some sn ∧
          op2.responses = dupdate op.responses "200" (success_response sn)) := by
  intro anns
  induction anns with
  | nil =>
    intro op op2 h
    simp only [classify_anns] at h
    cases h
    exact ⟨fun _ => rfl, fun t2 ht => by simp [last_ann] at ht⟩
  | cons p rest ih =>
    obtain ⟨m, t⟩ := p
    intro op op2 h
    simp only [classify_anns] at h
    cases hca : classify_ann mn route op m t with
    | none => simp only [hca] at h; cases h
    | some opm =>
      simp only [hca] at h
      have hmain := ih opm op2 h
      rcases classify_ann_cases mn route op m t opm hca with
        ⟨hm, sn, hsn, rfl⟩ | ⟨hm, sn, hsn, rfl⟩ | ⟨hm, inner, sn, hmc, hsn, rfl⟩ |
        ⟨hm, hmem, rfl⟩ | ⟨hm, hmem, rfl⟩
      · subst hm
        rw [last_ann_cons_eq]
        constructor
        · intro hcon; cases hcon
        · intro t2 ht2
          have ht2e : (last_ann rest "return").getD t = t2 := Option.some.inj ht2
          cases hlr : last_ann rest "return" with
          | none =>
            rw [hlr] at ht2e
            simp only [Option.getD_none] at ht2e
            subst ht2e
            refine ⟨sn, hsn, ?_⟩
            rw [hmain.1 hlr]
            simp [OpenApiOperation.add_response, add_schema_content_success, toString_200]
          | some t2b =>
            rw [hlr] at ht2e
            simp only [Option.getD_some] at ht2e
            subst ht2e
            obtain ⟨sn2, hsn2, hresp⟩ := hmain.2 t2b hlr
            refine ⟨sn2, hsn2, ?_⟩
            rw [hresp]
            simp [OpenApiOperation.add_response, add_schema_content_success, dupdate_dupdate,
              toString_200]
      · have hne : m ≠ "return" := by subst hm; decide
        rw [last_ann_cons_ne m t rest "return" hne]
        simpa [OpenApiOperation.set_request_body] using hmain
      · have hne : m ≠ "return" := by subst hm; decide
        rw [last_ann_cons_ne m t rest "return" hne]
        simpa [OpenApiOperation.set_request_body] using hmain
      · have hne : m ≠ "return" := by
          intro hh; rw [hh] at hm; simp [special_ann] at hm
        rw [last_ann_cons_ne m t rest "return" hne]
        simpa [OpenApiOperation.add_parameters] using hmain
      · have hne : m ≠ "return" := by
          intro hh; rw [hh] at hm; simp [special_ann] at hm
        rw [last_ann_cons_ne m t rest "return" hne]
        simpa [OpenApiOperation.add_parameters] using hmain

theorem classify_anns_requestBody (mn : List (Ty × String)) (route : Route) :
    ∀ (anns : List (String × Ty)) (op op2 : OpenApiOperation),
      classify_anns mn route anns op = some op2 →
      (last_rb anns = none → op2.requestBody = op.requestBody)
      ∧ (∀ t2, last_rb anns = some ("body", t2) → ∃ sn, alookup mn t2 = some sn ∧
          op2.requestBody = some (OpenApiOperationRequest.init.add_schema_content
            "application/json" sn none))
      ∧ (∀ t2, last_rb anns = some ("form", t2) →
          ∃ inner sn, t2.model_cls = some inner ∧ alookup mn inner = some sn ∧
          op2.requestBody = some (OpenApiOperationRequest.init.add_schema_content
            "multipart/form-data" sn none))
      ∧ (∀ m2 t2, last_rb anns = some (m2, t2) → m2 = "body" ∨ m2 = "form") := by
  intro anns
  induction anns with
  | nil =>
    intro op op2 h
    simp only [classify_anns] at h
    cases h
    refine ⟨fun _ => rfl, fun t2 ht => by simp [last_rb] at ht,
      fun t2 ht => by simp [last_rb] at ht, fun m2 t2 ht => by simp [last_rb] at ht⟩
  | cons p rest ih =>
    obtain ⟨m, t⟩ := p
    intro op op2 h
    simp only [classify_anns] at h
    cases hca : classify_ann mn route op m t with
    | none => simp only [hca] at h; cases h
    | some opm =>
      simp only [hca] at h
      have hmain := ih opm op2 h
      rcases classify_ann_cases mn route op m t opm hca with
        ⟨hm, sn, hsn, rfl⟩ | ⟨hm, sn, hsn, rfl⟩ | ⟨hm, inner, sn, hmc, hsn, rfl⟩ |
        ⟨hm, hmem, rfl⟩ | ⟨hm, hmem, rfl⟩
      · have hb : m ≠ "body" := by subst hm; decide
        have hf : m ≠ "form" := by subst hm; decide
        rw [last_rb_cons_not m t rest hb hf]
        simpa [OpenApiOperation.add_response] using hmain
      · subst hm
        rw [last_rb_cons_bf "body" t rest (Or.inl rfl)]
        cases hlr : last_rb rest with
        | none =>
          simp only [Option.getD_none]
          refine ⟨(fun hcon => by cases hcon), ?_, ?_, ?_⟩
          · intro t2 ht2
            simp only [Option.some.injEq, Prod.mk.injEq] at ht2
            obtain ⟨_, ht2e⟩ := ht2
            subst ht2e
            refine ⟨sn, hsn, ?_⟩
            rw [hmain.1 hlr]
            simp [OpenApiOperation.set_request_body]
          · intro t2 ht2
            simp only [Option.some.injEq, Prod.mk.injEq] at ht2
            exact absurd ht2.1.symm (by decide)
          · intro m2 t2 ht2
            simp only [Option.some.injEq, Prod.mk.injEq] at ht2
            exact Or.inl ht2.1.symm
        | some q =>
          simp only [Option.getD_some]
          have hrest := hmain
          refine ⟨(fun hcon => by cases hcon), ?_, ?_, ?_⟩
          · intro t2 ht2
            obtain ⟨sn2, hsn2, hrb⟩ := hrest.2.1 t2 (hlr.trans ht2)
            exact ⟨sn2, hsn2, hrb⟩
          · intro t2 ht2
            obtain ⟨inner2, sn2, hmc2, hsn2, hrb⟩ := hrest.2.2.1 t2 (hlr.trans ht2)
            exact ⟨inner2, sn2, hmc2, hsn2, hrb⟩
          · intro m2 t2 ht2
            exact hrest.2.2.2 m2 t2 (hlr.trans ht2)
      · subst hm
        rw [last_rb_cons_bf "form" t rest (Or.inr rfl)]
        cases hlr : last_rb rest with
        | none =>
          simp only [Option.getD_none]
          refine ⟨(fun hcon => by cases hcon), ?_, ?_, ?_⟩
          · intro t2 ht2
            simp only [Option.some.injEq, Prod.mk.injEq] at ht2
            exact absurd ht2.1.symm (by decide)
          · intro t2 ht2
            simp only [Option.some.injEq, Prod.mk.injEq] at ht2
            obtain ⟨_, ht2e⟩ := ht2
            subst ht2e
            refine ⟨inner, sn, hmc, hsn, ?_⟩
            rw [hmain.1 hlr]
            simp [OpenApiOperation.set_request_body]
          · intro m2 t2 ht2
            simp only [Option.some.injEq, Prod.mk.injEq] at ht2
            exact Or.inr ht2.1.symm
        | some q =>
          simp only [Option.getD_some]
          refine ⟨(fun hcon => by cases hcon), ?_, ?_, ?_⟩
          · intro t2 ht2
            obtain ⟨sn2, hsn2, hrb⟩ := hmain.2.1 t2 (hlr.trans ht2)
            exact ⟨sn2, hsn2, hrb⟩
          · intro t2 ht2
            obtain ⟨inner2, sn2, hmc2, hsn2, hrb⟩ := hmain.2.2.1 t2 (hlr.trans ht2)
            exact ⟨inner2, sn2, hmc2, hsn2, hrb⟩
          · intro m2 t2 ht2
            exact hmain.2.2.2 m2 t2 (hlr.trans ht2)
      · have hb : m ≠ "body" := by
          intro hh; rw [hh] at hm; simp [special_ann] at hm
        have hf : m ≠ "form" := by
          intro hh; rw [hh] at hm; simp [special_ann] at hm
        rw [last_rb_cons_not m t rest hb hf]
        simpa [OpenApiOperation.add_parameters] using hmain
      · have hb : m ≠ "body" := by
          intro hh; rw [hh] at hm; simp [special_ann] at hm
        have hf : m ≠ "form" := by
          intro hh; rw [hh] at hm; simp [special_ann] at hm
        rw [last_rb_cons_not m t rest hb hf]
        simpa [OpenApiOperation.add_parameters] using hmain

theorem process_auth_preserves (h : Handler) (route : Route) (op : OpenApiOperation)
    (st : BuildSt) (op2 : OpenApiOperation) (h2 : Handler) (st2 : BuildSt)
    (hp : process_auth h route op st = some (op2, h2, st2)) :
    op2.responses = op.responses ∧ op2.parameters = op.parameters
    ∧ op2.requestBody = op.requestBody ∧ op2.tags = op.tags
    ∧ h2.annotations = h.annotations := by
  unfold process_auth at hp
  cases had : h.auth_dict with
  | none =>
    simp only [had] at hp
    simp only [Option.some.injEq, Prod.mk.injEq] at hp
    obtain ⟨e1, e2, e3⟩ := hp
    subst e1; subst e2
    exact ⟨rfl, rfl, rfl, rfl, rfl⟩
  | some ad =>
    simp only [had] at hp
    cases har : ad.auth_require with
    | true =>
      cases hnm : ad.name with
      | none => simp [har, hnm] at hp
      | some nm =>
        simp [har, hnm] at hp
        obtain ⟨e1, e2, e3⟩ := hp
        subst e1; subst e2
        simp [OpenApiOperation.add_security]
    | false =>
      cases htk : ad.token_url with
      | true =>
        simp [har, htk] at hp
        obtain ⟨e1, e2, e3⟩ := hp
        subst e1; subst e2
        exact ⟨rfl, rfl, rfl, rfl, rfl⟩
      | false =>
        simp [har, htk] at hp
        obtain ⟨e1, e2, e3⟩ := hp
        subst e1; subst e2
        exact ⟨rfl, rfl, rfl, rfl, rfl⟩

/-- C4: iterating a handler's annotations in declared order, a `return`
annotation yields exactly one response entry, keyed by the string `"200"`,
with description "Success Response", media type `application/json` and a
schema `$ref` to the type's assigned name (`success_response`); an
annotation named in the route's path-parameter set yields a required `path`
parameter; any other non-special annotation yields an optional `query`
parameter (`params_of`). -/
theorem C4_parameter_classification
    (mn : List (Ty × String)) (h : Handler) (route : Route) (tags : List String)
    (st : BuildSt) (op : OpenApiOperation) (h2 : Handler) (st2 : BuildSt)
    (hnd : (h.annotations.map Prod.fst).Nodup)
    (hop : get_openapi_operation mn h route tags st = some (op, h2, st2)) :
    (∀ t, ("return", t) ∈ h.annotations → ∃ sn, alookup mn t = some sn ∧
        op.responses = [("200", success_response sn)])
    ∧ ("return" ∉ h.annotations.map Prod.fst → op.responses = [])
    ∧ op.parameters = params_of route h.annotations := by
  unfold get_openapi_operation at hop
  cases hcl : classify_anns mn route h.annotations
      { OpenApiOperation.init with tags := tags } with
  | none => simp only [hcl] at hop; cases hop
  | some opc =>
    simp only [hcl] at hop
    have hpre := process_auth_preserves h route opc st op h2 st2 hop
    have hresp := classify_anns_responses mn route h.annotations _ opc hcl
    have hpar := classify_anns_parameters mn route h.annotations _ opc hcl
    refine ⟨?_, ?_, ?_⟩
    · intro t hmem
      have hla := last_ann_of_nodup h.annotations "return" t hnd hmem
      obtain ⟨sn, hsn, he⟩ := hresp.2 t hla
      refine ⟨sn, hsn, ?_⟩
      rw [hpre.1, he]
      simp [OpenApiOperation.init, dupdate]
    · intro hnot
      have hla := (last_ann_none_iff h.annotations "return").mpr hnot
      rw [hpre.1, hresp.1 hla]
      simp [OpenApiOperation.init]
    · rw [hpre.2.1, hpar]
      simp [OpenApiOperation.init]

/-- Fixture for the C4 witness: a route with path-parameter set `{id}` and a
handler annotated `id: int, q: str, return: SomeModel`. -/
def someModelTy : Ty := Ty.plain 1 true

def c4_route : Route :=
  { path := "/items/{id}", param_convertors := ["id"], endpoint := Endpoint.plain }

def c4_handler : Handler :=
  { annotations := [("id", Ty.plain 2 false), ("q", Ty.plain 3 false), ("return", someModelTy)],
    auth_dict := none }

def c4_mn : List (Ty × String) := [(someModelTy, "SomeModel")]

def c4_result : OpenApiOperation :=
  { tags := [], security := [],
    parameters := [{ name := "id", location_in := "path", required := true },
                   { name := "q", location_in := "query", required := false }],
    requestBody := none,
    responses := [("200", success_response "SomeModel")] }

/-- Witness for C4 on the spec's own example: exactly one required path
parameter `id`, one optional query parameter `q`, and a single `200`
response referencing `SomeModel`. -/
theorem C4_parameter_classification_witness :
    get_openapi_operation c4_mn c4_handler c4_route []
        { securitySchemas_index := [], token_url := none }
      = some (c4_result, c4_handler, { securitySchemas_index := [], token_url := none })
    ∧ c4_result.responses = [("200", success_response "SomeModel")]
    ∧ c4_result.parameters = params_of c4_route c4_handler.annotations := by
  have hop : get_openapi_operation c4_mn c4_handler c4_route []
      { securitySchemas_index := [], token_url := none }
    = some (c4_result, c4_handler, { securitySchemas_index := [], token_url := none }) := by
    rfl
  have hnd : (c4_handler.annotations.map Prod.fst).Nodup := by decide
  have h := C4_parameter_classification c4_mn c4_handler c4_route []
    { securitySchemas_index := [], token_url := none } c4_result c4_handler
    { securitySchemas_index := [], token_url := none } hnd hop
  refine ⟨hop, ?_, h.2.2⟩
  obtain ⟨sn, hsn, he⟩ := h.1 someModelTy (by simp [c4_handler])
  have hsn2 : sn = "SomeModel" := by
    have : alookup c4_mn someModelTy = some "SomeModel" := by rfl
    rw [this] at hsn
    exact (Option.some.inj hsn).symm
  rw [← hsn2]
  exact he

/-! ### Model collection -/

theorem alookup_mem {α : Type} [DecidableEq α] {β : Type} {l : List (α × β)} {k : α} {v : β}
    (h : alookup l k = some v) : (k, v) ∈ l := by
  induction l with
  | nil => cases h
  | cons p rest ih =>
    simp only [alookup] at h
    by_cases hk : p.1 = k
    · rw [if_pos hk] at h
      have : p = (k, v) := by
        obtain ⟨a, b⟩ := p
        simp only at hk
        simp only [Option.some.injEq] at h
        simp [hk, h]
      rw [← this]
      exact List.mem_cons_self p rest
    · rw [if_neg hk] at h
      exact List.mem_cons_of_mem p (ih h)

theorem alookup_eq_none_iff {α : Type} [DecidableEq α] {β : Type} (l : List (α × β)) (k : α) :
    alookup l k = none ↔ k ∉ l.map Prod.fst := by
  induction l with
  | nil => simp [alookup]
  | cons p rest ih =>
    simp only [alookup, List.map_cons, List.mem_cons, not_or]
    by_cases hk : p.1 = k
    · simp [hk]
    · rw [if_neg hk, ih]
      constructor
      · intro hnm
        exact ⟨fun hh => hk hh.symm, hnm⟩
      · exact fun hh => hh.2

theorem add_model_mem (acc : List Ty) (u t : Ty) :
    t ∈ add_model acc u ↔ t ∈ acc ∨ t = u := by
  unfold add_model
  by_cases h : u ∈ acc
  · simp only [if_pos h]
    constructor
    · exact Or.inl
    · rintro (ht | rfl)
      · exact ht
      · exact h
  · simp [if_neg h]

theorem collect_from_ann_mem (acc acc2 : List Ty) (ann t : Ty)
    (h : collect_from_ann acc ann = some acc2) (ht : t ∈ acc2) :
    t ∈ acc ∨ (ann.isBaseModel = true ∧ t = ann) ∨ ann.model_cls = some t := by
  unfold collect_from_ann at h
  by_cases hbf : ann.isBaseForm = true
  · rw [if_pos hbf] at h
    cases hmc : ann.model_cls with
    | none => rw [hmc] at h; cases h
    | some c =>
      rw [hmc] at h
      have hacc2 : acc2 = add_model (if ann.isBaseModel = true then add_model acc ann else acc) c :=
        (Option.some.inj h).symm
      subst hacc2
      rcases (add_model_mem _ c t).mp ht with hin | rfl
      · by_cases hbm : ann.isBaseModel = true
        · rw [if_pos hbm] at hin
          rcases (add_model_mem acc ann t).mp hin with hin2 | rfl
          · exact Or.inl hin2
          · exact Or.inr (Or.inl ⟨hbm, rfl⟩)
        · rw [if_neg hbm] at hin
          exact Or.inl hin
      · exact Or.inr (Or.inr rfl)
  · rw [if_neg hbf] at h
    have hacc2 : acc2 = if ann.isBaseModel = true then add_model acc ann else acc :=
      (Option.some.inj h).symm
    subst hacc2
    by_cases hbm : ann.isBaseModel = true
    · rw [if_pos hbm] at ht
      rcases (add_model_mem acc ann t).mp ht with hin | rfl
      · exact Or.inl hin
      · exact Or.inr (Or.inl ⟨hbm, rfl⟩)
    · rw [if_neg hbm] at ht
      exact Or.inl ht

theorem collect_handler_mem (anns : List (String × Ty)) :
    ∀ (acc acc2 : List Ty) (t : Ty),
      collect_handler acc anns = some acc2 → t ∈ acc2 →
      t ∈ acc ∨ ∃ q, q ∈ anns ∧
        ((q.2.isBaseModel = true ∧ t = q.2) ∨ q.2.model_cls = some t) := by
  induction anns with
  | nil =>
    intro acc acc2 t h ht
    simp only [collect_handler] at h
    cases h
    exact Or.inl ht
  | cons p rest ih =>
    obtain ⟨n, ann⟩ := p
    intro acc acc2 t h ht
    simp only [collect_handler] at h
    cases hca : collect_from_ann acc ann with
    | none => simp only [hca] at h; cases h
    | some accm =>
      simp only [hca] at h
      rcases ih accm acc2 t h ht with hin | ⟨q, hq, hqq⟩
      · rcases collect_from_ann_mem acc accm ann t hca hin with hin2 | hbm | hmc
        · exact Or.inl hin2
        · exact Or.inr ⟨(n, ann), List.mem_cons_self _ _, Or.inl hbm⟩
        · exact Or.inr ⟨(n, ann), List.mem_cons_self _ _, Or.inr hmc⟩
      · exact Or.inr ⟨q, List.mem_cons_of_mem _ hq, hqq⟩

theorem collect_endpoint_mem (e : PydEndpoint) :
    ∀ (methods : List String) (acc acc2 : List Ty) (t : Ty),
      collect_endpoint e acc methods = some acc2 → t ∈ acc2 →
      t ∈ acc ∨ ∃ p, p ∈ e.handlers ∧ ∃ q, q ∈ p.2.annotations ∧
        ((q.2.isBaseModel = true ∧ t = q.2) ∨ q.2.model_cls = some t) := by
  intro methods
  induction methods with
  | nil =>
    intro acc acc2 t h ht
    simp only [collect_endpoint] at h
    cases h
    exact Or.inl ht
  | cons m rest ih =>
    intro acc acc2 t h ht
    simp only [collect_endpoint] at h
    cases hlk : alookup e.handlers m with
    | none =>
      simp only [hlk] at h
      exact ih acc acc2 t h ht
    | some hd =>
      simp only [hlk] at h
      cases hch : collect_handler acc hd.annotations with
      | none => simp only [hch] at h; cases h
      | some accm =>
        simp only [hch] at h
        rcases ih accm acc2 t h ht with hin | hex
        · rcases collect_handler_mem hd.annotations acc accm t hch hin with hin2 | ⟨q, hq, hqq⟩
          · exact Or.inl hin2
          · exact Or.inr ⟨(m, hd), alookup_mem hlk, q, hq, hqq⟩
        · exact Or.inr hex

theorem collect_models_mem (routes : List Route) :
    ∀ (acc acc2 : List Ty) (t : Ty),
      collect_models routes acc = some acc2 → t ∈ acc2 →
      t ∈ acc ∨ ∃ r, r ∈ routes ∧ ∃ e, r.endpoint = Endpoint.pyd e ∧
        ∃ p, p ∈ e.handlers ∧ ∃ q, q ∈ p.2.annotations ∧
          ((q.2.isBaseModel = true ∧ t = q.2) ∨ q.2.model_cls = some t) := by
  induction routes with
  | nil =>
    intro acc acc2 t h ht
    simp only [collect_models] at h
    cases h
    exact Or.inl ht
  | cons r rest ih =>
    intro acc acc2 t h ht
    simp only [collect_models] at h
    cases hre : r.endpoint with
    | plain =>
      rw [hre] at h
      rcases ih acc acc2 t h ht with hin | ⟨r2, hr2, hrest⟩
      · exact Or.inl hin
      · exact Or.inr ⟨r2, List.mem_cons_of_mem _ hr2, hrest⟩
    | pyd e =>
      rw [hre] at h
      cases hce : collect_endpoint e acc OpenApiPath.operations with
      | none => simp only [hce] at h; cases h
      | some accm =>
        simp only [hce] at h
        rcases ih accm acc2 t h ht with hin | ⟨r2, hr2, hrest⟩
        · rcases collect_endpoint_mem e OpenApiPath.operations acc accm t hce hin with
            hin2 | hex
          · exact Or.inl hin2
          · exact Or.inr ⟨r, List.mem_cons_self _ _, e, hre, hex⟩
        · exact Or.inr ⟨r2, List.mem_cons_of_mem _ hr2, hrest⟩

theorem assign_names_from_fst (models : List Ty) :
    ∀ i, (assign_names_from i models).map Prod.fst = models := by
  induction models with
  | nil => intro i; simp [assign_names_from]
  | cons t rest ih => intro i; simp [assign_names_from, ih]

theorem assign_names_fst (models : List Ty) :
    (assign_names models).map Prod.fst = models :=
  assign_names_from_fst models 0

theorem last_rb_none_of (anns : List (String × Ty))
    (hb : "body" ∉ anns.map Prod.fst) (hf : "form" ∉ anns.map Prod.fst) :
    last_rb anns = none := by
  induction anns with
  | nil => simp [last_rb]
  | cons p rest ih =>
    obtain ⟨m, t⟩ := p
    simp only [List.map_cons, List.mem_cons, not_or] at hb hf
    rw [last_rb_cons_not m t rest (fun hh => hb.1 hh.symm) (fun hh => hf.1 hh.symm)]
    exact ih hb.2 hf.2

theorem last_rb_of_form (anns : List (String × Ty)) (F : Ty)
    (hnd : (anns.map Prod.fst).Nodup) (hmem : ("form", F) ∈ anns)
    (hnobody : "body" ∉ anns.map Prod.fst) :
    last_rb anns = some ("form", F) := by
  induction anns with
  | nil => cases hmem
  | cons p rest ih =>
    obtain ⟨m, t⟩ := p
    simp only [List.map_cons, List.nodup_cons] at hnd
    simp only [List.map_cons, List.mem_cons, not_or] at hnobody
    rcases List.mem_cons.mp hmem with he | hmem2
    · simp only [Prod.mk.injEq] at he
      obtain ⟨he1, he2⟩ := he
      subst he1; subst he2
      have hnof : "form" ∉ rest.map Prod.fst := hnd.1
      rw [last_rb_cons_bf "form" F rest (Or.inr rfl),
        last_rb_none_of rest hnobody.2 hnof]
      rfl
    · have hmne1 : m ≠ "body" := fun hh => hnobody.1 hh.symm
      have hmne2 : m ≠ "form" := by
        intro hh
        subst hh
        exact hnd.1 (List.mem_map_of_mem Prod.fst hmem2)
      rw [last_rb_cons_not m t rest hmne1 hmne2]
      exact ih hnd.2 hmem2 hnobody.2

/-- C5: a handler annotated `form: F` where the form wrapper `F` wraps the
inner model `P` produces a request body with media type
`multipart/form-data` whose schema `$ref` names `P`'s assigned dictionary
name; and the wrapper `F` itself is never registered: it is not collected
into the model set, it has no assigned name, and the schema dictionary's
keys are exactly the assigned names of the collected models.  (`F` not being
a `BaseModel` subclass, and not being wrapped by any other annotation, is the
form-wrapper contract of the external collaborator, per the spec.) -/
theorem C5_form_unwrapping
    (routes : List Route) (models : List Ty) (mn : List (Ty × String))
    (h : Handler) (route : Route) (tags : List String) (st : BuildSt)
    (op : OpenApiOperation) (h2 : Handler) (st2 : BuildSt) (F P : Ty)
    (hF : F.model_cls = some P)
    (hFnm : F.isBaseModel = false)
    (hcoll : collect_models routes [] = some models)
    (hmn : mn = assign_names models)
    (hnoinner : ∀ r, r ∈ routes → ∀ e, r.endpoint = Endpoint.pyd e →
        ∀ p, p ∈ e.handlers → ∀ q, q ∈ p.2.annotations → q.2.model_cls ≠ some F)
    (hnd : (h.annotations.map Prod.fst).Nodup)
    (hmem : ("form", F) ∈ h.annotations)
    (hnobody : "body" ∉ h.annotations.map Prod.fst)
    (hop : get_openapi_operation mn h route tags st = some (op, h2, st2)) :
    (∃ sn, alookup mn P = some sn ∧
      op.requestBody = some (OpenApiOperationRequest.init.add_schema_content
        "multipart/form-data" sn none))
    ∧ F ∉ models
    ∧ alookup mn F = none
    ∧ (schema_definitions mn).map Prod.fst = mn.map Prod.snd := by
  have hFnotin : F ∉ models := by
    intro hin
    rcases collect_models_mem routes [] models F hcoll hin with hnil | hex
    · cases hnil
    · obtain ⟨r, hr, e, he, p, hp, q, hq, hcase⟩ := hex
      rcases hcase with ⟨hbm, rfl⟩ | hmc
      · rw [hFnm] at hbm; cases hbm
      · exact hnoinner r hr e he p hp q hq hmc
  refine ⟨?_, hFnotin, ?_, ?_⟩
  · unfold get_openapi_operation at hop
    cases hcl : classify_anns mn route h.annotations
        { OpenApiOperation.init with tags := tags } with
    | none => simp only [hcl] at hop; cases hop
    | some opc =>
      simp only [hcl] at hop
      have hpre := process_auth_preserves h route opc st op h2 st2 hop
      have hrb := classify_anns_requestBody mn route h.annotations _ opc hcl
      have hlrb := last_rb_of_form h.annotations F hnd hmem hnobody
      obtain ⟨inner, sn, hmc, hsn, he⟩ := hrb.2.2.1 F hlrb
      have hinner : inner = P := by
        rw [hF] at hmc
        exact (Option.some.inj hmc).symm
      subst hinner
      exact ⟨sn, hsn, by rw [hpre.2.2.1, he]⟩
  · rw [hmn, alookup_eq_none_iff, assign_names_fst]
    exact hFnotin
  · simp [schema_definitions]

/-- Fixture for the C5 witness: `c5F` is a form wrapper around the model
`c5P`; one route, one `post` handler annotated `form: c5F`. -/
def c5P : Ty := Ty.plain 10 true

def c5F : Ty := Ty.form 11 false c5P

def c5_handler : Handler := { annotations := [("form", c5F)], auth_dict := none }

def c5_endpoint : PydEndpoint := { tags := [], handlers := [("post", c5_handler)] }

def c5_route : Route :=
  { path := "/upload", param_convertors := [], endpoint := Endpoint.pyd c5_endpoint }

def c5_routes : List Route := [c5_route]

def c5_op : OpenApiOperation :=
  { tags := [], parameters := [], security := [], responses := [],
    requestBody := some (OpenApiOperationRequest.init.add_schema_content
      "multipart/form-data" "Model_0" none) }

/-- Witness for C5: the form wrapper's inner model is collected and named,
the request body references the inner model under `multipart/form-data`, and
the wrapper itself is neither collected nor named. -/
theorem C5_form_unwrapping_witness :
    get_openapi_operation (assign_names [c5P]) c5_handler c5_route []
        { securitySchemas_index := [], token_url := none }
      = some (c5_op, c5_handler, { securitySchemas_index := [], token_url := none })
    ∧ c5_op.requestBody = some (OpenApiOperationRequest.init.add_schema_content
        "multipart/form-data" "Model_0" none)
    ∧ c5F ∉ [c5P]
    ∧ alookup (assign_names [c5P]) c5F = none := by
  have hop : get_openapi_operation (assign_names [c5P]) c5_handler c5_route []
      { securitySchemas_index := [], token_url := none }
    = some (c5_op, c5_handler, { securitySchemas_index := [], token_url := none }) := by
    rfl
  have hnoinner : ∀ r, r ∈ c5_routes → ∀ e, r.endpoint = Endpoint.pyd e →
      ∀ p, p ∈ e.handlers → ∀ q, q ∈ p.2.annotations → q.2.model_cls ≠ some c5F := by
    intro r hr e he p hp q hq
    have hre : r = c5_route := by simpa [c5_routes] using hr
    subst hre
    have hee : e = c5_endpoint := by
      have : Endpoint.pyd c5_endpoint = Endpoint.pyd e := he
      cases this
      rfl
    subst hee
    have hpe : p = ("post", c5_handler) := by simpa [c5_endpoint] using hp
    subst hpe
    have hqe : q = ("form", c5F) := by simpa [c5_handler] using hq
    subst hqe
    decide
  have h := C5_form_unwrapping c5_routes [c5P] (assign_names [c5P]) c5_handler
    c5_route [] { securitySchemas_index := [], token_url := none } c5_op c5_handler
    { securitySchemas_index := [], token_url := none } c5F c5P rfl rfl (by rfl) rfl
    hnoinner (by decide) (by simp [c5_handler]) (by decide) hop
  refine ⟨hop, ?_, ?_, h.2.2.1⟩
  · obtain ⟨sn, hsn, he⟩ := h.1
    have hsne : sn = "Model_0" := by
      have hv : alookup (assign_names [c5P]) c5P = some "Model_0" := by rfl
      rw [hv] at hsn
      exact (Option.some.inj hsn).symm
    rw [← hsne]
    exact he
  · intro hin
    exact h.2.1 hin

/-! ### Referential integrity -/

/-- The string payload of a `$ref` value. -/
def refVal : Value → List String
  | Value.str s => [s]
  | _ => []

mutual

/-- All strings stored under a `$ref` key anywhere in a plain value. -/
def collectRefs : Value → List String
  | Value.vlist xs => collectRefsL xs
  | Value.vdict kvs => collectRefsKV kvs
  | Value.node _ attrs => collectRefsKV attrs
  | _ => []
termination_by v => sizeOf v
decreasing_by
  all_goals simp_wf
  all_goals omega

def collectRefsL : List Value → List String
  | [] => []
  | v :: vs => collectRefs v ++ collectRefsL vs
termination_by xs => sizeOf xs
decreasing_by
  all_goals simp_wf
  all_goals omega

def collectRefsKV : List (String × Value) → List String
  | [] => []
  | (k, v) :: kvs => (if k = "$ref" then refVal v else []) ++ collectRefs v ++ collectRefsKV kvs
termination_by kvs => sizeOf kvs
decreasing_by
  all_goals simp_wf
  all_goals omega

end

/-- Membership in the refs of a dict, pair by pair. -/
theorem collectRefsKV_mem (kvs : List (String × Value)) (s : String) :
    s ∈ collectRefsKV kvs ↔
      ∃ p, p ∈ kvs ∧ (s ∈ (if p.1 = "$ref" then refVal p.2 else []) ∨ s ∈ collectRefs p.2) := by
  induction kvs with
  | nil => simp [collectRefsKV]
  | cons p rest ih =>
    obtain ⟨k, v⟩ := p
    simp only [collectRefsKV, List.mem_append, ih]
    constructor
    · rintro ((h | h) | ⟨q, hq, hqq⟩)
      · exact ⟨(k, v), List.mem_cons_self _ _, Or.inl h⟩
      · exact ⟨(k, v), List.mem_cons_self _ _, Or.inr h⟩
      · exact ⟨q, List.mem_cons_of_mem _ hq, hqq⟩
    · rintro ⟨q, hq, hqq⟩
      rcases List.mem_cons.mp hq with rfl | hq2
      · rcases hqq with h | h
        · exact Or.inl (Or.inl h)
        · exact Or.inl (Or.inr h)
      · exact Or.inr ⟨q, hq2, hqq⟩

theorem dupdate_mem {α : Type} [DecidableEq α] {β : Type} {l : List (α × β)} {k : α} {v : β}
    {p : α × β} (h : p ∈ dupdate l k v) : p ∈ l ∨ p = (k, v) := by
  induction l with
  | nil => simpa [dupdate] using h
  | cons q rest ih =>
    by_cases hk : q.1 = k
    · simp only [dupdate, if_pos hk] at h
      rcases List.mem_cons.mp h with rfl | h2
      · exact Or.inr rfl
      · exact Or.inl (List.mem_cons_of_mem _ h2)
    · simp only [dupdate, if_neg hk] at h
      rcases List.mem_cons.mp h with rfl | h2
      · exact Or.inl (List.mem_cons_self _ _)
      · rcases ih h2 with h3 | h3
        · exact Or.inl (List.mem_cons_of_mem _ h3)
        · exact Or.inr h3

theorem schema_content_entry_refs (sn : String) :
    collectRefs (schema_content_entry sn none) = ["#/components/schemas/" ++ sn]
    ∧ refVal (schema_content_entry sn none) = [] := by
  constructor
  · simp [schema_content_entry, collectRefs, collectRefsKV, refVal]
  · simp [schema_content_entry, refVal]

/-- A `$ref` string that points at one of the assigned schema names. -/
def GoodRef (mn : List (Ty × String)) (s : String) : Prop :=
  ∃ n, s = "#/components/schemas/" ++ n ∧ n ∈ mn.map Prod.snd

def response_content_refs (r : OpenApiOperationResponse) : List String :=
  collectRefs (Value.vdict r.content)

def operation_body_refs (op : OpenApiOperation) : List String :=
  (match op.requestBody with
   | none => []
   | some rb => collectRefs (Value.vdict rb.content))
  ++ (op.responses.map (fun p => response_content_refs p.2)).join

def path_body_refs (p : OpenApiPath) : List String :=
  (p.ops.map (fun q => operation_body_refs q.2)).join

def paths_body_refs (ps : OpenApiPaths) : List String :=
  (ps.paths.map (fun q => path_body_refs q.2)).join

theorem alookup_snd_mem {α : Type} [DecidableEq α] {β : Type} {l : List (α × β)} {k : α} {v : β}
    (h : alookup l k = some v) : v ∈ l.map Prod.snd := by
  have := alookup_mem h
  exact List.mem_map.mpr ⟨(k, v), this, rfl⟩

theorem single_entry_refs (mt sn : String) :
    collectRefs (Value.vdict [(mt, schema_content_entry sn none)])
      = ["#/components/schemas/" ++ sn] := by
  by_cases hmt : mt = "$ref" <;>
    simp [collectRefs, collectRefsKV, hmt, (schema_content_entry_refs sn).1,
      (schema_content_entry_refs sn).2]

/-- Every `$ref` in an operation's request body and response contents points
at an assigned schema name. -/
def OpRefsOK (mn : List (Ty × String)) (op : OpenApiOperation) : Prop :=
  ∀ s, s ∈ operation_body_refs op → GoodRef mn s

theorem opRefsOK_classify_ann (mn : List (Ty × String)) (route : Route)
    (op : OpenApiOperation) (n : String) (t : Ty) (op2 : OpenApiOperation)
    (h : classify_ann mn route op n t = some op2) (hok : OpRefsOK mn op) :
    OpRefsOK mn op2 := by
  rcases classify_ann_cases mn route op n t op2 h with
    ⟨hm, sn, hsn, rfl⟩ | ⟨hm, sn, hsn, rfl⟩ | ⟨hm, inner, sn, hmc, hsn, rfl⟩ |
    ⟨hm, hmem, rfl⟩ | ⟨hm, hmem, rfl⟩
  · intro s hs
    simp only [operation_body_refs, OpenApiOperation.add_response, List.mem_append] at hs
    rcases hs with hs | hs
    · exact hok s (by simp only [operation_body_refs, List.mem_append]; exact Or.inl hs)
    · rw [List.mem_join] at hs
      obtain ⟨refs, hrefs, hsr⟩ := hs
      rw [List.mem_map] at hrefs
      obtain ⟨q, hq, rfl⟩ := hrefs
      rcases dupdate_mem hq with hq2 | rfl
      · refine hok s ?_
        simp only [operation_body_refs, List.mem_append]
        refine Or.inr (List.mem_join.mpr ⟨response_content_refs q.2, ?_, hsr⟩)
        exact List.mem_map.mpr ⟨q, hq2, rfl⟩
      · simp only [response_content_refs, OpenApiOperationResponse.add_schema_content,
          OpenApiOperationResponse.init] at hsr
        rw [show dupdate ([] : List (String × Value)) "application/json"
            (schema_content_entry sn none) = [("application/json", schema_content_entry sn none)]
          from rfl] at hsr
        rw [single_entry_refs] at hsr
        simp only [List.mem_singleton] at hsr
        exact ⟨sn, hsr, alookup_snd_mem hsn⟩
  · intro s hs
    simp only [operation_body_refs, OpenApiOperation.set_request_body, List.mem_append] at hs
    rcases hs with hs | hs
    · simp only [OpenApiOperationRequest.add_schema_content, OpenApiOperationRequest.init] at hs
      rw [show dupdate ([] : List (String × Value)) "application/json"
          (schema_content_entry sn none) = [("application/json", schema_content_entry sn none)]
        from rfl] at hs
      rw [single_entry_refs] at hs
      simp only [List.mem_singleton] at hs
      exact ⟨sn, hs, alookup_snd_mem hsn⟩
    · exact hok s (by simp only [operation_body_refs, List.mem_append]; exact Or.inr hs)
  · intro s hs
    simp only [operation_body_refs, OpenApiOperation.set_request_body, List.mem_append] at hs
    rcases hs with hs | hs
    · simp only [OpenApiOperationRequest.add_schema_content, OpenApiOperationRequest.init] at hs
      rw [show dupdate ([] : List (String × Value)) "multipart/form-data"
          (schema_content_entry sn none) = [("multipart/form-data", schema_content_entry sn none)]
        from rfl] at hs
      rw [single_entry_refs] at hs
      simp only [List.mem_singleton] at hs
      exact ⟨sn, hs, alookup_snd_mem hsn⟩
    · exact hok s (by simp only [operation_body_refs, List.mem_append]; exact Or.inr hs)
  · intro s hs
    refine hok s ?_
    simpa [operation_body_refs, OpenApiOperation.add_parameters] using hs
  · intro s hs
    refine hok s ?_
    simpa [operation_body_refs, OpenApiOperation.add_parameters] using hs

theorem opRefsOK_classify_anns (mn : List (Ty × String)) (route : Route) :
    ∀ (anns : List (String × Ty)) (op op2 : OpenApiOperation),
      classify_anns mn route anns op = some op2 → OpRefsOK mn op → OpRefsOK mn op2 := by
  intro anns
  induction anns with
  | nil =>
    intro op op2 h hok
    simp only [classify_anns] at h
    cases h
    exact hok
  | cons p rest ih =>
    obtain ⟨n, t⟩ := p
    intro op op2 h hok
    simp only [classify_anns] at h
    cases hca : classify_ann mn route op n t with
    | none => simp only [hca] at h; cases h
    | some opm =>
      simp only [hca] at h
      exact ih opm op2 h (opRefsOK_classify_ann mn route op n t opm hca hok)

theorem opRefsOK_get_operation (mn : List (Ty × String)) (h : Handler) (route : Route)
    (tags : List String) (st : BuildSt) (op : OpenApiOperation) (h2 : Handler)
    (st2 : BuildSt) (hop : get_openapi_operation mn h route tags st = some (op, h2, st2)) :
    OpRefsOK mn op := by
  unfold get_openapi_operation at hop
  cases hcl : classify_anns mn route h.annotations
      { OpenApiOperation.init with tags := tags } with
  | none => simp only [hcl] at hop; cases hop
  | some opc =>
    simp only [hcl] at hop
    have hinit : OpRefsOK mn { OpenApiOperation.init with tags := tags } := by
      intro s hs
      simp [operation_body_refs, OpenApiOperation.init, collectRefs] at hs
    have hokc := opRefsOK_classify_anns mn route h.annotations _ opc hcl hinit
    have hpre := process_auth_preserves h route opc st op h2 st2 hop
    intro s hs
    refine hokc s ?_
    simp only [operation_body_refs, hpre.1, hpre.2.1, hpre.2.2.1] at hs ⊢
    exact hs

def PathRefsOK (mn : List (Ty × String)) (p : OpenApiPath) : Prop :=
  ∀ s, s ∈ path_body_refs p → GoodRef mn s

theorem pathRefsOK_add (mn : List (Ty × String)) (p : OpenApiPath) (m : String)
    (op : OpenApiOperation) (hp : PathRefsOK mn p) (hop : OpRefsOK mn op) :
    PathRefsOK mn (p.add_operation m op) := by
  intro s hs
  simp only [path_body_refs, OpenApiPath.add_operation, List.mem_join] at hs
  obtain ⟨refs, hrefs, hsr⟩ := hs
  rw [List.mem_map] at hrefs
  obtain ⟨q, hq, rfl⟩ := hrefs
  rcases dupdate_mem hq with hq2 | rfl
  · exact hp s (List.mem_join.mpr ⟨operation_body_refs q.2, List.mem_map.mpr ⟨q, hq2, rfl⟩, hsr⟩)
  · exact hop s hsr

theorem pathRefsOK_path_methods (mn : List (Ty × String)) (route : Route) :
    ∀ (methods : List String) (p : OpenApiPath) (e : PydEndpoint) (st : BuildSt)
      (p2 : OpenApiPath) (e2 : PydEndpoint) (st2 : BuildSt),
      path_methods mn route methods p e st = some (p2, e2, st2) →
      PathRefsOK mn p → PathRefsOK mn p2 := by
  intro methods
  induction methods with
  | nil =>
    intro p e st p2 e2 st2 h hp
    simp only [path_methods] at h
    simp only [Option.some.injEq, Prod.mk.injEq] at h
    obtain ⟨e1, _, _⟩ := h
    rw [← e1]
    exact hp
  | cons m rest ih =>
    intro p e st p2 e2 st2 h hp
    simp only [path_methods] at h
    cases hlk : alookup e.handlers m with
    | none =>
      simp only [hlk] at h
      exact ih p e st p2 e2 st2 h hp
    | some hd =>
      simp only [hlk] at h
      cases hgo : get_openapi_operation mn hd route e.tags st with
      | none => simp only [hgo] at h; cases h
      | some res =>
        obtain ⟨op, hd2, stm⟩ := res
        simp only [hgo] at h
        exact ih _ _ _ p2 e2 st2 h
          (pathRefsOK_add mn p m op hp (opRefsOK_get_operation mn hd route e.tags st op hd2 stm hgo))

def PathsRefsOK (mn : List (Ty × String)) (ps : OpenApiPaths) : Prop :=
  ∀ s, s ∈ paths_body_refs ps → GoodRef mn s

theorem pathsRefsOK_add (mn : List (Ty × String)) (ps : OpenApiPaths) (url : String)
    (p : OpenApiPath) (hps : PathsRefsOK mn ps) (hp : PathRefsOK mn p) :
    PathsRefsOK mn (ps.add_path url p) := by
  intro s hs
  simp only [paths_body_refs, OpenApiPaths.add_path, List.mem_join] at hs
  obtain ⟨refs, hrefs, hsr⟩ := hs
  rw [List.mem_map] at hrefs
  obtain ⟨q, hq, rfl⟩ := hrefs
  rcases dupdate_mem hq with hq2 | rfl
  · exact hps s (List.mem_join.mpr ⟨path_body_refs q.2, List.mem_map.mpr ⟨q, hq2, rfl⟩, hsr⟩)
  · exact hp s hsr

theorem pathsRefsOK_get_paths (mn : List (Ty × String)) :
    ∀ (routes : List Route) (ps : OpenApiPaths) (st : BuildSt)
      (ps2 : OpenApiPaths) (routes2 : List Route) (st2 : BuildSt),
      get_openapi_paths mn routes ps st = some (ps2, routes2, st2) →
      PathsRefsOK mn ps → PathsRefsOK mn ps2 := by
  intro routes
  induction routes with
  | nil =>
    intro ps st ps2 routes2 st2 h hps
    simp only [get_openapi_paths] at h
    simp only [Option.some.injEq, Prod.mk.injEq] at h
    obtain ⟨e1, _, _⟩ := h
    rw [← e1]
    exact hps
  | cons r rest ih =>
    intro ps st ps2 routes2 st2 h hps
    simp only [get_openapi_paths] at h
    cases hre : r.endpoint with
    | plain =>
      rw [hre] at h
      cases hrec : get_openapi_paths mn rest ps st with
      | none => simp only [hrec] at h; cases h
      | some res =>
        obtain ⟨psm, restm, stm⟩ := res
        simp only [hrec, Option.some.injEq, Prod.mk.injEq] at h
        obtain ⟨e1, _, _⟩ := h
        rw [← e1]
        exact (fun s hs => ih ps st psm restm stm hrec hps s hs)
    | pyd e =>
      rw [hre] at h
      cases hgp : get_openapi_path mn r e st with
      | none => simp only [hgp] at h; cases h
      | some res =>
        obtain ⟨p, e2, stm⟩ := res
        simp only [hgp] at h
        cases hrec : get_openapi_paths mn rest (ps.add_path r.path p) stm with
        | none => simp only [hrec] at h; cases h
        | some res2 =>
          obtain ⟨ps3, rest3, st3⟩ := res2
          simp only [hrec, Option.some.injEq, Prod.mk.injEq] at h
          obtain ⟨e1, _, _⟩ := h
          rw [← e1]
          have hpok : PathRefsOK mn p := by
            unfold get_openapi_path at hgp
            have hinit : PathRefsOK mn { ops := [] } := by
              intro s hs
              simp [path_body_refs] at hs
            exact pathRefsOK_path_methods mn r OpenApiPath.operations
              { ops := [] } e st p e2 stm hgp hinit
          exact ih (ps.add_path r.path p) stm ps3 rest3 st3 hrec
            (pathsRefsOK_add mn ps r.path p hps hpok)

theorem schema_definitions_fst (mn : List (Ty × String)) :
    (schema_definitions mn).map Prod.fst = mn.map Prod.snd := by
  simp [schema_definitions]

/-- C1: in every document produced by a completed full build, every `$ref`
string appearing in any request-body or response content has the form
`#/components/schemas/<name>` for a `<name>` that is a key of the
components' schemas map. -/
theorem C1_referential_integrity
    (o : OpenApi) (routes : List Route) (o2 : OpenApi) (routes2 : List Route)
    (data : OpenApiData) (doc : Value)
    (hb : run_build o routes = some (o2, routes2, data, doc)) :
    ∀ s, s ∈ paths_body_refs data.paths →
      ∃ n, s = "#/components/schemas/" ++ n
        ∧ n ∈ data.components.schemas.map Prod.fst := by
  unfold run_build at hb
  cases hmn : get_models_name routes with
  | none => simp only [hmn] at hb; cases hb
  | some mn =>
    simp only [hmn] at hb
    cases hgp : get_openapi_paths mn routes { paths := [] }
        { securitySchemas_index := o.securitySchemas_index, token_url := o.token_url } with
    | none => simp only [hgp] at hb; cases hb
    | some res =>
      obtain ⟨paths, routesb, stb⟩ := res
      simp only [hgp] at hb
      cases hgc : get_openapi_components mn stb with
      | none => simp only [hgc] at hb; cases hb
      | some components =>
        simp only [hgc, Option.some.injEq, Prod.mk.injEq] at hb
        obtain ⟨_, _, hdata, _⟩ := hb
        have hpaths : PathsRefsOK mn paths := by
          refine pathsRefsOK_get_paths mn routes { paths := [] } _ paths routesb stb hgp ?_
          intro s hs
          simp [paths_body_refs] at hs
        have hschemas : components.schemas = schema_definitions mn := by
          unfold get_openapi_components at hgc
          cases hbs : build_security_schemas stb.token_url stb.securitySchemas_index with
          | none => simp only [hbs] at hgc; cases hgc
          | some schemes =>
            simp only [hbs, Option.some.injEq] at hgc
            rw [← hgc]
        intro s hs
        rw [← hdata] at hs
        simp only at hs
        obtain ⟨n, hn, hnin⟩ := hpaths s hs
        refine ⟨n, hn, ?_⟩
        rw [← hdata]
        simp only [hschemas, schema_definitions_fst]
        exact hnin

/-- Fixture for the C1 witness: one route whose handler returns a model. -/
def c1_model : Ty := Ty.plain 7 true

def c1_handler : Handler := { annotations := [("return", c1_model)], auth_dict := none }

def c1_ep : PydEndpoint := { tags := [], handlers := [("get", c1_handler)] }

def c1_routes : List Route :=
  [{ path := "/w", param_convertors := [], endpoint := Endpoint.pyd c1_ep }]

def c1_o : OpenApi := OpenApi.init "T" none "/openapi" "1.0"

def c1_op : OpenApiOperation :=
  { tags := [], parameters := [], requestBody := none, security := [],
    responses := [("200", success_response "Model_0")] }

def c1_data : OpenApiData :=
  { openapi := "3.0.3",
    info := { title := "T", description := none, version := "1.0" },
    paths := { paths := [("/w", { ops := [("get", c1_op)] })] },
    components := { schemas := schema_definitions [(c1_model, "Model_0")],
                    securitySchemes := [] } }

def c1_o2 : OpenApi :=
  { c1_o with models_name := some [(c1_model, "Model_0")],
              api_schemas := some (serField c1_data.toNode),
              delegateCalls := 1 }

/-- Witness for C1: the one `$ref` the fixture build emits resolves to a key
of the schema dictionary. -/
theorem C1_referential_integrity_witness :
    run_build c1_o c1_routes = some (c1_o2, c1_routes, c1_data, serField c1_data.toNode)
    ∧ "#/components/schemas/Model_0" ∈ paths_body_refs c1_data.paths
    ∧ ∃ n, "#/components/schemas/Model_0" = "#/components/schemas/" ++ n
        ∧ n ∈ c1_data.components.schemas.map Prod.fst := by
  have hb : run_build c1_o c1_routes
      = some (c1_o2, c1_routes, c1_data, serField c1_data.toNode) := by rfl
  have hmem : "#/components/schemas/Model_0" ∈ paths_body_refs c1_data.paths := by
    simp [paths_body_refs, path_body_refs, operation_body_refs, response_content_refs,
      c1_data, c1_op, success_response, schema_content_entry, collectRefs, collectRefsKV,
      refVal]
  exact ⟨hb, hmem,
    C1_referential_integrity c1_o c1_routes c1_o2 c1_routes c1_data _ hb
      "#/components/schemas/Model_0" hmem⟩

/-! ### Token URL tracking -/

/-- Whether a handler's descriptor claims the token endpoint: a falsy
`auth_require` together with a truthy `token_url`. -/
def handler_token_claim (h : Handler) : Bool :=
  match h.auth_dict with
  | some ad => !ad.auth_require && ad.token_url
  | none => false

/-- The token-endpoint claims made while processing one endpoint's methods in
the fixed order: one entry (the route's path) per claiming handler. -/
def methods_token_claims (e : PydEndpoint) (path : String) (methods : List String) : List String :=
  methods.filterMap (fun m =>
    match alookup e.handlers m with
    | some hd => if handler_token_claim hd then some path else none
    | none => none)

def route_token_claims (r : Route) : List String :=
  match r.endpoint with
  | Endpoint.pyd e => methods_token_claims e r.path OpenApiPath.operations
  | Endpoint.plain => []

def token_claims : List Route → List String
  | [] => []
  | r :: rest => route_token_claims r ++ token_claims rest

/-- Last-writer-wins folding of token-endpoint claims over an initial value. -/
def last_claim : List String → Option String → Option String
  | [], tk => tk
  | c :: cs, _ => last_claim cs (some c)

theorem last_claim_append (a b : List String) (tk : Option String) :
    last_claim (a ++ b) tk = last_claim b (last_claim a tk) := by
  induction a generalizing tk with
  | nil => simp [last_claim]
  | cons c cs ih => simp [last_claim, ih]

theorem last_claim_eq_getLast (cs : List String) :
    ∀ (tk : Option String) (h : cs ≠ []), last_claim cs tk = some (cs.getLast h) := by
  induction cs with
  | nil => intro tk h; exact absurd rfl h
  | cons c rest ih =>
    intro tk h
    cases rest with
    | nil => simp [last_claim]
    | cons d ds =>
      have hih := ih (some d) (List.cons_ne_nil d ds)
      simp only [last_claim] at hih
      simp only [last_claim]
      rw [hih]
      exact congrArg some (List.getLast_cons (List.cons_ne_nil d ds)).symm

theorem get_operation_token (mn : List (Ty × String)) (h : Handler) (route : Route)
    (tags : List String) (st : BuildSt) (op : OpenApiOperation) (h2 : Handler)
    (st2 : BuildSt) (hop : get_openapi_operation mn h route tags st = some (op, h2, st2)) :
    st2.token_url = (if handler_token_claim h = true then some route.path else st.token_url)
    ∧ h2.auth_dict = none := by
  unfold get_openapi_operation at hop
  cases hcl : classify_anns mn route h.annotations
      { OpenApiOperation.init with tags := tags } with
  | none => simp only [hcl] at hop; cases hop
  | some opc =>
    simp only [hcl] at hop
    unfold process_auth at hop
    cases had : h.auth_dict with
    | none =>
      simp only [had] at hop
      simp only [Option.some.injEq, Prod.mk.injEq] at hop
      obtain ⟨_, e2, e3⟩ := hop
      subst e2; subst e3
      simp [handler_token_claim, had]
    | some ad =>
      simp only [had] at hop
      cases har : ad.auth_require with
      | true =>
        cases hnm : ad.name with
        | none => simp [har, hnm] at hop
        | some nm =>
          simp [har, hnm] at hop
          obtain ⟨_, e2, e3⟩ := hop
          subst e2
          constructor
          · rw [← e3]
            by_cases hidx : (alookup st.securitySchemas_index nm).isSome <;>
              simp [hidx, handler_token_claim, had, har]
          · rfl
      | false =>
        cases htk : ad.token_url with
        | true =>
          simp [har, htk] at hop
          obtain ⟨_, e2, e3⟩ := hop
          subst e2
          rw [← e3]
          simp [handler_token_claim, had, har, htk]
        | false =>
          simp [har, htk] at hop
          obtain ⟨_, e2, e3⟩ := hop
          subst e2
          rw [← e3]
          simp [handler_token_claim, had, har, htk]

theorem path_methods_handlers (mn : List (Ty × String)) (route : Route) :
    ∀ (methods : List String) (p : OpenApiPath) (e : PydEndpoint) (st : BuildSt)
      (p2 : OpenApiPath) (e2 : PydEndpoint) (st2 : BuildSt),
      path_methods mn route methods p e st = some (p2, e2, st2) →
      ∀ m2, m2 ∉ methods → alookup e2.handlers m2 = alookup e.handlers m2 := by
  intro methods
  induction methods with
  | nil =>
    intro p e st p2 e2 st2 h m2 _
    simp only [path_methods, Option.some.injEq, Prod.mk.injEq] at h
    obtain ⟨_, he, _⟩ := h
    rw [← he]
  | cons m rest ih =>
    intro p e st p2 e2 st2 h m2 hm2
    simp only [List.mem_cons, not_or] at hm2
    simp only [path_methods] at h
    cases hlk : alookup e.handlers m with
    | none =>
      simp only [hlk] at h
      exact ih p e st p2 e2 st2 h m2 hm2.2
    | some hd =>
      simp only [hlk] at h
      cases hgo : get_openapi_operation mn hd route e.tags st with
      | none => simp only [hgo] at h; cases h
      | some res =>
        obtain ⟨op, hd2, stm⟩ := res
        simp only [hgo] at h
        rw [ih _ _ _ p2 e2 st2 h m2 hm2.2]
        simp only [alookup_dupdate]
        rw [if_neg hm2.1]

theorem methods_token_claims_congr (path : String) (e e2 : PydEndpoint)
    (methods : List String)
    (hagree : ∀ m, m ∈ methods → alookup e2.handlers m = alookup e.handlers m) :
    methods_token_claims e2 path methods = methods_token_claims e path methods := by
  induction methods with
  | nil => simp [methods_token_claims]
  | cons m rest ih =>
    simp only [methods_token_claims, List.filterMap_cons]
    rw [hagree m (List.mem_cons_self m rest)]
    have := ih (fun m2 hm2 => hagree m2 (List.mem_cons_of_mem m hm2))
    simp only [methods_token_claims] at this
    rw [this]

theorem path_methods_token (mn : List (Ty × String)) (route : Route) :
    ∀ (methods : List String) (p : OpenApiPath) (e : PydEndpoint) (st : BuildSt)
      (p2 : OpenApiPath) (e2 : PydEndpoint) (st2 : BuildSt),
      methods.Nodup →
      path_methods mn route methods p e st = some (p2, e2, st2) →
      st2.token_url = last_claim (methods_token_claims e route.path methods) st.token_url := by
  intro methods
  induction methods with
  | nil =>
    intro p e st p2 e2 st2 _ h
    simp only [path_methods, Option.some.injEq, Prod.mk.injEq] at h
    obtain ⟨_, _, hst⟩ := h
    rw [← hst]
    simp [methods_token_claims, last_claim]
  | cons m rest ih =>
    intro p e st p2 e2 st2 hnd h
    simp only [List.nodup_cons] at hnd
    simp only [path_methods] at h
    cases hlk : alookup e.handlers m with
    | none =>
      simp only [hlk] at h
      rw [ih p e st p2 e2 st2 hnd.2 h]
      simp [methods_token_claims, List.filterMap_cons, hlk]
    | some hd =>
      simp only [hlk] at h
      cases hgo : get_openapi_operation mn hd route e.tags st with
      | none => simp only [hgo] at h; cases h
      | some res =>
        obtain ⟨op, hd2, stm⟩ := res
        simp only [hgo] at h
        have htok := (get_operation_token mn hd route e.tags st op hd2 stm hgo).1
        have hrec := ih _ _ _ p2 e2 st2 hnd.2 h
        have hcongr : methods_token_claims { e with handlers := dupdate e.handlers m hd2 }
            route.path rest = methods_token_claims e route.path rest := by
          apply methods_token_claims_congr
          intro m2 hm2
          simp only [alookup_dupdate]
          rw [if_neg (fun hh : m2 = m => hnd.1 (hh ▸ hm2))]
        rw [hcongr] at hrec
        rw [hrec, htok]
        by_cases hcl : handler_token_claim hd = true
        · simp [methods_token_claims, List.filterMap_cons, hlk, hcl, last_claim]
        · simp [methods_token_claims, List.filterMap_cons, hlk, hcl, last_claim]

theorem path_methods_consumed (mn : List (Ty × String)) (route : Route) :
    ∀ (methods : List String) (p : OpenApiPath) (e : PydEndpoint) (st : BuildSt)
      (p2 : OpenApiPath) (e2 : PydEndpoint) (st2 : BuildSt),
      methods.Nodup →
      path_methods mn route methods p e st = some (p2, e2, st2) →
      ∀ m, m ∈ methods → ∀ hd, alookup e2.handlers m = some hd → hd.auth_dict = none := by
  intro methods
  induction methods with
  | nil =>
    intro p e st p2 e2 st2 _ _ m hm
    cases hm
  | cons m0 rest ih =>
    intro p e st p2 e2 st2 hnd h m hm hd hhd
    simp only [List.nodup_cons] at hnd
    simp only [path_methods] at h
    cases hlk : alookup e.handlers m0 with
    | none =>
      simp only [hlk] at h
      rcases List.mem_cons.mp hm with rfl | hm2
      · rw [path_methods_handlers mn route rest p e st p2 e2 st2 h m hnd.1] at hhd
        rw [hlk] at hhd
        cases hhd
      · exact ih p e st p2 e2 st2 hnd.2 h m hm2 hd hhd
    | some hd0 =>
      simp only [hlk] at h
      cases hgo : get_openapi_operation mn hd0 route e.tags st with
      | none => simp only [hgo] at h; cases h
      | some res =>
        obtain ⟨op, hd2, stm⟩ := res
        simp only [hgo] at h
        rcases List.mem_cons.mp hm with rfl | hm2
        · rw [path_methods_handlers mn route rest _ _ _ p2 e2 st2 h m hnd.1] at hhd
          simp only [alookup_dupdate, if_pos rfl] at hhd
          have := (get_operation_token mn hd0 route e.tags st op hd2 stm hgo).2
          rw [← Option.some.inj hhd]
          exact this
        · exact ih _ _ _ p2 e2 st2 hnd.2 h m hm2 hd hhd

theorem get_paths_token (mn : List (Ty × String)) :
    ∀ (routes : List Route) (ps : OpenApiPaths) (st : BuildSt)
      (ps2 : OpenApiPaths) (routes2 : List Route) (st2 : BuildSt),
      get_openapi_paths mn routes ps st = some (ps2, routes2, st2) →
      st2.token_url = last_claim (token_claims routes) st.token_url := by
  intro routes
  induction routes with
  | nil =>
    intro ps st ps2 routes2 st2 h
    simp only [get_openapi_paths, Option.some.injEq, Prod.mk.injEq] at h
    obtain ⟨_, _, hst⟩ := h
    rw [← hst]
    simp [token_claims, last_claim]
  | cons r rest ih =>
    intro ps st ps2 routes2 st2 h
    simp only [get_openapi_paths] at h
    cases hre : r.endpoint with
    | plain =>
      rw [hre] at h
      cases hrec : get_openapi_paths mn rest ps st with
      | none => simp only [hrec] at h; cases h
      | some res =>
        obtain ⟨psm, restm, stm⟩ := res
        simp only [hrec, Option.some.injEq, Prod.mk.injEq] at h
        obtain ⟨_, _, hst⟩ := h
        rw [← hst, ih ps st psm restm stm hrec]
        simp [token_claims, route_token_claims, hre, last_claim]
    | pyd e =>
      rw [hre] at h
      cases hgp : get_openapi_path mn r e st with
      | none => simp only [hgp] at h; cases h
      | some res =>
        obtain ⟨p, e2, stm⟩ := res
        simp only [hgp] at h
        cases hrec : get_openapi_paths mn rest (ps.add_path r.path p) stm with
        | none => simp only [hrec] at h; cases h
        | some res2 =>
          obtain ⟨ps3, rest3, st3⟩ := res2
          simp only [hrec, Option.some.injEq, Prod.mk.injEq] at h
          obtain ⟨_, _, hst⟩ := h
          rw [← hst, ih _ stm ps3 rest3 st3 hrec]
          have hm := path_methods_token mn r OpenApiPath.operations { ops := [] } e st
            p e2 stm (by decide) hgp
          rw [hm]
          simp only [token_claims, route_token_claims, hre, last_claim_append]

theorem get_paths_consumed (mn : List (Ty × String)) :
    ∀ (routes : List Route) (ps : OpenApiPaths) (st : BuildSt)
      (ps2 : OpenApiPaths) (routes2 : List Route) (st2 : BuildSt),
      get_openapi_paths mn routes ps st = some (ps2, routes2, st2) →
      ∀ r2, r2 ∈ routes2 → ∀ e, r2.endpoint = Endpoint.pyd e →
        ∀ m, m ∈ OpenApiPath.operations → ∀ hd, alookup e.handlers m = some hd →
          hd.auth_dict = none := by
  intro routes
  induction routes with
  | nil =>
    intro ps st ps2 routes2 st2 h r2 hr2
    simp only [get_openapi_paths, Option.some.injEq, Prod.mk.injEq] at h
    obtain ⟨_, hroutes, _⟩ := h
    rw [← hroutes] at hr2
    cases hr2
  | cons r rest ih =>
    intro ps st ps2 routes2 st2 h r2 hr2 e he m hm hd hhd
    simp only [get_openapi_paths] at h
    cases hre : r.endpoint with
    | plain =>
      rw [hre] at h
      cases hrec : get_openapi_paths mn rest ps st with
      | none => simp only [hrec] at h; cases h
      | some res =>
        obtain ⟨psm, restm, stm⟩ := res
        simp only [hrec, Option.some.injEq, Prod.mk.injEq] at h
        obtain ⟨_, hroutes, _⟩ := h
        rw [← hroutes] at hr2
        rcases List.mem_cons.mp hr2 with rfl | hr3
        · rw [hre] at he
          cases he
        · exact ih ps st psm restm stm hrec r2 hr3 e he m hm hd hhd
    | pyd e0 =>
      rw [hre] at h
      cases hgp : get_openapi_path mn r e0 st with
      | none => simp only [hgp] at h; cases h
      | some res =>
        obtain ⟨p, e02, stm⟩ := res
        simp only [hgp] at h
        cases hrec : get_openapi_paths mn rest (ps.add_path r.path p) stm with
        | none => simp only [hrec] at h; cases h
        | some res2 =>
          obtain ⟨ps3, rest3, st3⟩ := res2
          simp only [hrec, Option.some.injEq, Prod.mk.injEq] at h
          obtain ⟨_, hroutes, _⟩ := h
          rw [← hroutes] at hr2
          rcases List.mem_cons.mp hr2 with rfl | hr3
          · simp only at he
            have hee : e = e02 := by
              have hpe : Endpoint.pyd e02 = Endpoint.pyd e := he
              cases hpe
              rfl
            subst hee
            have hgp2 : path_methods mn r OpenApiPath.operations { ops := [] } e0 st
                = some (p, e, stm) := hgp
            exact path_methods_consumed mn r OpenApiPath.operations
              { ops := [] } e0 st p e stm (by decide) hgp2 m hm hd hhd
          · exact ih _ stm ps3 rest3 st3 hrec r2 hr3 e he m hm hd hhd

theorem build_security_schemas_flows (tk : Option String) :
    ∀ (idx : List (String × AuthDict)) (schemes : List (String × OpenApiSecuritySchema)),
      build_security_schemas tk idx = some schemes →
      ∀ p, p ∈ schemes → p.2.flows = password_flows tk := by
  intro idx
  induction idx with
  | nil =>
    intro schemes h p hp
    simp only [build_security_schemas] at h
    cases h
    cases hp
  | cons q rest ih =>
    obtain ⟨nm, ad⟩ := q
    intro schemes h p hp
    simp only [build_security_schemas] at h
    cases hat : ad.auth_type with
    | none => simp only [hat] at h; cases h
    | some ty =>
      simp only [hat] at h
      cases hrec : build_security_schemas tk rest with
      | none => simp only [hrec] at h; cases h
      | some rest2 =>
        simp only [hrec, Option.some.injEq] at h
        rw [← h] at hp
        rcases List.mem_cons.mp hp with rfl | hp2
        · rfl
        · exact ih rest2 hrec p hp2

/-- C7: during one build, the recorded OAuth2 password-flow token endpoint is
the last-writer-wins fold of all token claims (routes whose descriptor has a
truthy `token_url` and falsy `auth_require`, in processing order) — in
particular, when claims exist, the path of the last claiming route
processed; that recorded value is the `tokenUrl` of every emitted security
scheme's password flow; and every processed handler has its descriptor
removed. -/
theorem C7_token_url (mn : List (Ty × String)) (routes : List Route)
    (ps0 : OpenApiPaths) (st : BuildSt) (ps2 : OpenApiPaths) (routes2 : List Route)
    (st2 : BuildSt) (comps : OpenApiComponents)
    (hgp : get_openapi_paths mn routes ps0 st = some (ps2, routes2, st2))
    (hgc : get_openapi_components mn st2 = some comps) :
    st2.token_url = last_claim (token_claims routes) st.token_url
    ∧ (∀ hne : token_claims routes ≠ [],
        st2.token_url = some ((token_claims routes).getLast hne))
    ∧ (∀ p, p ∈ comps.securitySchemes → p.2.flows = password_flows st2.token_url)
    ∧ (∀ r2, r2 ∈ routes2 → ∀ e, r2.endpoint = Endpoint.pyd e →
        ∀ m, m ∈ OpenApiPath.operations → ∀ hd, alookup e.handlers m = some hd →
          hd.auth_dict = none) := by
  have htok := get_paths_token mn routes ps0 st ps2 routes2 st2 hgp
  refine ⟨htok, ?_, ?_, get_paths_consumed mn routes ps0 st ps2 routes2 st2 hgp⟩
  · intro hne
    rw [htok, last_claim_eq_getLast (token_claims routes) st.token_url hne]
  · intro p hp
    unfold get_openapi_components at hgc
    cases hbs : build_security_schemas st2.token_url st2.securitySchemas_index with
    | none => simp only [hbs] at hgc; cases hgc
    | some schemes =>
      simp only [hbs, Option.some.injEq] at hgc
      have hps : comps.securitySchemes = schemes := by rw [← hgc]
      rw [hps] at hp
      exact build_security_schemas_flows st2.token_url st2.securitySchemas_index
        schemes hbs p hp

/-- Fixture for the C7 witness: two routes claim the token endpoint, a third
requires authentication. -/
def c7_ad_tok : AuthDict :=
  { auth_require := false, name := none, token_url := true, auth_type := none }

def c7_ad_sec : AuthDict :=
  { auth_require := true, name := some "oauth", token_url := false,
    auth_type := some (Value.str "oauth2") }

def c7_h_tok : Handler := { annotations := [], auth_dict := some c7_ad_tok }

def c7_h_sec : Handler := { annotations := [], auth_dict := some c7_ad_sec }

def c7_routes : List Route :=
  [{ path := "/login1", param_convertors := [],
     endpoint := Endpoint.pyd { tags := [], handlers := [("get", c7_h_tok)] } },
   { path := "/login2", param_convertors := [],
     endpoint := Endpoint.pyd { tags := [], handlers := [("get", c7_h_tok)] } },
   { path := "/sec", param_convertors := [],
     endpoint := Endpoint.pyd { tags := [], handlers := [("get", c7_h_sec)] } }]

def c7_h_none : Handler := { annotations := [], auth_dict := none }

def c7_op_plain : OpenApiOperation :=
  { tags := [], parameters := [], requestBody := none, responses := [], security := [] }

def c7_op_sec : OpenApiOperation :=
  { tags := [], parameters := [], requestBody := none, responses := [],
    security := [{ name := "oauth", scopes := [] }] }

def c7_ps2 : OpenApiPaths :=
  { paths := [("/login1", { ops := [("get", c7_op_plain)] }),
              ("/login2", { ops := [("get", c7_op_plain)] }),
              ("/sec", { ops := [("get", c7_op_sec)] })] }

def c7_routes2 : List Route :=
  [{ path := "/login1", param_convertors := [],
     endpoint := Endpoint.pyd { tags := [], handlers := [("get", c7_h_none)] } },
   { path := "/login2", param_convertors := [],
     endpoint := Endpoint.pyd { tags := [], handlers := [("get", c7_h_none)] } },
   { path := "/sec", param_convertors := [],
     endpoint := Endpoint.pyd { tags := [], handlers := [("get", c7_h_none)] } }]

def c7_st2 : BuildSt :=
  { securitySchemas_index := [("oauth", c7_ad_sec)], token_url := some "/login2" }

def c7_scheme : OpenApiSecuritySchema :=
  { type := Value.str "oauth2", flows := password_flows (some "/login2") }

def c7_comps : OpenApiComponents :=
  { schemas := [], securitySchemes := [("oauth", c7_scheme)] }

/-- Witness for C7: with two token-claiming routes, the recorded token URL is
the second route's path, the emitted scheme's password flow carries it, and
the consumed descriptors are gone from the resulting handlers. -/
theorem C7_token_url_witness :
    get_openapi_paths [] c7_routes { paths := [] }
        { securitySchemas_index := [], token_url := none }
      = some (c7_ps2, c7_routes2, c7_st2)
    ∧ get_openapi_components [] c7_st2 = some c7_comps
    ∧ token_claims c7_routes = ["/login1", "/login2"]
    ∧ c7_st2.token_url = some "/login2"
    ∧ c7_scheme.flows = password_flows c7_st2.token_url
    ∧ c7_h_none.auth_dict = none := by
  have hgp : get_openapi_paths [] c7_routes { paths := [] }
      { securitySchemas_index := [], token_url := none }
    = some (c7_ps2, c7_routes2, c7_st2) := by rfl
  have hgc : get_openapi_components [] c7_st2 = some c7_comps := by rfl
  have h := C7_token_url [] c7_routes { paths := [] }
    { securitySchemas_index := [], token_url := none } c7_ps2 c7_routes2 c7_st2
    c7_comps hgp hgc
  have hclaims : token_claims c7_routes = ["/login1", "/login2"] := by rfl
  refine ⟨hgp, hgc, hclaims, ?_, ?_, ?_⟩
  · have h1 := h.1
    rw [hclaims] at h1
    simpa [last_claim] using h1
  · exact h.2.2.1 ("oauth", c7_scheme) (by simp [c7_comps])
  · exact h.2.2.2
      { path := "/login1", param_convertors := [],
        endpoint := Endpoint.pyd { tags := [], handlers := [("get", c7_h_none)] } }
      (by simp [c7_routes2])
      { tags := [], handlers := [("get", c7_h_none)] } rfl
      "get" (by decide) c7_h_none rfl

/-! ### Self-exclusion of the document route -/

theorem get_paths_keys (mn : List (Ty × String)) :
    ∀ (routes : List Route) (ps : OpenApiPaths) (st : BuildSt)
      (ps2 : OpenApiPaths) (routes2 : List Route) (st2 : BuildSt),
      get_openapi_paths mn routes ps st = some (ps2, routes2, st2) →
      ∀ k, k ∈ ps2.paths.map Prod.fst →
        k ∈ ps.paths.map Prod.fst
        ∨ ∃ r, r ∈ routes ∧ is_pydantic_endpoint r.endpoint = true ∧ r.path = k := by
  intro routes
  induction routes with
  | nil =>
    intro ps st ps2 routes2 st2 h k hk
    simp only [get_openapi_paths, Option.some.injEq, Prod.mk.injEq] at h
    obtain ⟨hps, _, _⟩ := h
    rw [← hps] at hk
    exact Or.inl hk
  | cons r rest ih =>
    intro ps st ps2 routes2 st2 h k hk
    simp only [get_openapi_paths] at h
    cases hre : r.endpoint with
    | plain =>
      rw [hre] at h
      cases hrec : get_openapi_paths mn rest ps st with
      | none => simp only [hrec] at h; cases h
      | some res =>
        obtain ⟨psm, restm, stm⟩ := res
        simp only [hrec, Option.some.injEq, Prod.mk.injEq] at h
        obtain ⟨hps, _, _⟩ := h
        rw [← hps] at hk
        rcases ih ps st psm restm stm hrec k hk with hin | ⟨rr, hrr, hrest⟩
        · exact Or.inl hin
        · exact Or.inr ⟨rr, List.mem_cons_of_mem _ hrr, hrest⟩
    | pyd e =>
      rw [hre] at h
      cases hgp : get_openapi_path mn r e st with
      | none => simp only [hgp] at h; cases h
      | some res =>
        obtain ⟨p, e2, stm⟩ := res
        simp only [hgp] at h
        cases hrec : get_openapi_paths mn rest (ps.add_path r.path p) stm with
        | none => simp only [hrec] at h; cases h
        | some res2 =>
          obtain ⟨ps3, rest3, st3⟩ := res2
          simp only [hrec, Option.some.injEq, Prod.mk.injEq] at h
          obtain ⟨hps, _, _⟩ := h
          rw [← hps] at hk
          rcases ih _ stm ps3 rest3 st3 hrec k hk with hin | ⟨rr, hrr, hrest⟩
          · rw [List.mem_map] at hin
            obtain ⟨q, hq, rfl⟩ := hin
            rcases dupdate_mem hq with hq2 | rfl
            · exact Or.inl (List.mem_map.mpr ⟨q, hq2, rfl⟩)
            · exact Or.inr ⟨r, List.mem_cons_self _ _, by simp [is_pydantic_endpoint, hre], rfl⟩
          · exact Or.inr ⟨rr, List.mem_cons_of_mem _ hrr, hrest⟩

/-- C9: the document endpoint's route is registered with a non-class (bound
method) endpoint that fails the `is_pydantic_endpoint` capability check, so
when no user route with a pydantic endpoint shares the document path, that
path never appears as a key of the generated paths map; and every key of the
paths map comes from a route whose endpoint passes the capability check. -/
theorem C9_self_exclusion (userRoutes : List Route) (api_url : String)
    (mn : List (Ty × String)) (st : BuildSt) (ps2 : OpenApiPaths)
    (routes2 : List Route) (st2 : BuildSt)
    (hgp : get_openapi_paths mn (OpenApi.register userRoutes api_url) { paths := [] } st
      = some (ps2, routes2, st2))
    (huser : ∀ r, r ∈ userRoutes → is_pydantic_endpoint r.endpoint = true → r.path ≠ api_url) :
    api_url ∉ ps2.paths.map Prod.fst
    ∧ (∀ k, k ∈ ps2.paths.map Prod.fst →
        ∃ r, r ∈ OpenApi.register userRoutes api_url
          ∧ is_pydantic_endpoint r.endpoint = true ∧ r.path = k) := by
  have hkeys := get_paths_keys mn (OpenApi.register userRoutes api_url)
    { paths := [] } st ps2 routes2 st2 hgp
  constructor
  · intro hmem
    rcases hkeys api_url hmem with hin | ⟨r, hr, hpyd, hpath⟩
    · simp at hin
    · have hr2 : r ∈ userRoutes
          ∨ r = { path := api_url, param_convertors := [], endpoint := Endpoint.plain } := by
        simpa [OpenApi.register] using hr
      rcases hr2 with hru | hrd
      · exact huser r hru hpyd hpath
      · rw [hrd] at hpyd
        simp [is_pydantic_endpoint] at hpyd
  · intro k hk
    rcases hkeys k hk with hin | hex
    · simp at hin
    · exact hex

/-- Witness for C9: a one-route user table plus the registered document
route; `/openapi` is not among the generated path keys. -/
theorem C9_self_exclusion_witness :
    get_openapi_paths [] (OpenApi.register
        [{ path := "/a", param_convertors := [],
           endpoint := Endpoint.pyd { tags := [], handlers := [] } }] "/openapi")
        { paths := [] } { securitySchemas_index := [], token_url := none }
      = some ({ paths := [("/a", { ops := [] })] },
          [{ path := "/a", param_convertors := [],
             endpoint := Endpoint.pyd { tags := [], handlers := [] } },
           { path := "/openapi", param_convertors := [], endpoint := Endpoint.plain }],
          { securitySchemas_index := [], token_url := none })
    ∧ "/openapi" ∉ ([("/a", OpenApiPath.mk [])].map Prod.fst) := by
  have hgp : get_openapi_paths [] (OpenApi.register
      [{ path := "/a", param_convertors := [],
         endpoint := Endpoint.pyd { tags := [], handlers := [] } }] "/openapi")
      { paths := [] } { securitySchemas_index := [], token_url := none }
    = some ({ paths := [("/a", { ops := [] })] },
        [{ path := "/a", param_convertors := [],
           endpoint := Endpoint.pyd { tags := [], handlers := [] } },
         { path := "/openapi", param_convertors := [], endpoint := Endpoint.plain }],
        { securitySchemas_index := [], token_url := none }) := by rfl
  refine ⟨hgp, ?_⟩
  have h := C9_self_exclusion
    [{ path := "/a", param_convertors := [],
       endpoint := Endpoint.pyd { tags := [], handlers := [] } }] "/openapi" []
    { securitySchemas_index := [], token_url := none }
    { paths := [("/a", { ops := [] })] }
    [{ path := "/a", param_convertors := [],
       endpoint := Endpoint.pyd { tags := [], handlers := [] } },
     { path := "/openapi", param_convertors := [], endpoint := Endpoint.plain }]
    { securitySchemas_index := [], token_url := none } hgp
    (by intro r hr _; simp at hr; rw [hr]; decide)
  exact h.1

/-! ### Idempotent caching -/

theorem alookup_ne_nil {β : Type} {l : List (String × β)} {k : String} {v : β}
    (h : alookup l k = some v) : l.isEmpty = false := by
  cases l with
  | nil => cases h
  | cons p rest => rfl

/-- The serialized document is always a non-empty dict (it always carries the
`openapi` key), hence truthy. -/
theorem data_doc_truthy (d : OpenApiData) : isTruthy (serField d.toNode) = true := by
  have halk : alookup (dictFields
      [("openapi", Value.str d.openapi), ("info", d.info.toNode),
       ("servers", Value.null), ("paths", d.paths.dictV),
       ("components", d.components.toNode),
       ("security", Value.vlist []), ("tags", Value.vlist []),
       ("externalDocs", Value.null)] OpenApiData.fixed_fields []) "openapi"
      = some (serField (Value.str d.openapi)) := by
    rw [dictFields_alookup]
    have hls : lastSet
        [("openapi", Value.str d.openapi), ("info", d.info.toNode),
         ("servers", Value.null), ("paths", d.paths.dictV),
         ("components", d.components.toNode),
         ("security", Value.vlist []), ("tags", Value.vlist []),
         ("externalDocs", Value.null)] OpenApiData.fixed_fields "openapi"
        = some (Value.str d.openapi) := by
      simp [OpenApiData.fixed_fields, lastSet, rename_field, set_value, alookup]
    rw [hls]
  simp only [OpenApiData.toNode, serField]
  simp only [isTruthy]
  rw [alookup_ne_nil halk]
  rfl

/-- C8: the endpoint handler builds only when no truthy cached document
exists; with a truthy cache it returns exactly the cached object with status
200 and leaves the instance (including the delegate-call counter)
untouched; and a successful build leaves a truthy cache that every later
invocation serves unchanged. -/
theorem C8_idempotent_caching (o : OpenApi) (routes : List Route) :
    (∀ d, o.api_schemas = some d → isTruthy d = true →
      get_openapi_data o routes = (o, routes, some (200, d)))
    ∧ (truthyCache o.api_schemas = false →
        get_openapi_data o routes
          = (match run_build o routes with
             | none => (o, routes, none)
             | some (o2, routes2, _, doc) => (o2, routes2, some (200, doc))))
    ∧ (∀ o2 routes2 data doc, run_build o routes = some (o2, routes2, data, doc) →
        truthyCache o2.api_schemas = true
        ∧ o2.delegateCalls = o.delegateCalls + 1
        ∧ ∀ routes3, get_openapi_data o2 routes3 = (o2, routes3, some (200, doc))) := by
  refine ⟨?_, ?_, ?_⟩
  · intro d hd htr
    unfold get_openapi_data
    rw [if_pos (by simp [truthyCache, hd, htr])]
    rw [hd]
    rfl
  · intro hfalse
    unfold get_openapi_data
    rw [if_neg (by simp [hfalse])]
  · intro o2 routes2 data doc hb
    unfold run_build at hb
    cases hmn : get_models_name routes with
    | none => simp only [hmn] at hb; cases hb
    | some mn =>
      simp only [hmn] at hb
      cases hgp : get_openapi_paths mn routes { paths := [] }
          { securitySchemas_index := o.securitySchemas_index, token_url := o.token_url } with
      | none => simp only [hgp] at hb; cases hb
      | some res =>
        obtain ⟨paths, routesb, stb⟩ := res
        simp only [hgp] at hb
        cases hgc : get_openapi_components mn stb with
        | none => simp only [hgc] at hb; cases hb
        | some components =>
          simp only [hgc, Option.some.injEq, Prod.mk.injEq] at hb
          obtain ⟨ho2, _, hdata, hdoc⟩ := hb
          have hcache : o2.api_schemas = some doc := by
            rw [← ho2, ← hdoc]
          have htruthy : isTruthy doc = true := by
            rw [← hdoc]
            exact data_doc_truthy _
          refine ⟨by simp [truthyCache, hcache, htruthy], ?_, ?_⟩
          · rw [← ho2]
          · intro routes3
            unfold get_openapi_data
            rw [if_pos (by simp [truthyCache, hcache, htruthy])]
            rw [hcache]
            rfl

def c8_doc : Value := Value.vdict [("openapi", Value.str "3.0.3")]

def c8_o : OpenApi :=
  { OpenApi.init "T" none "/openapi" "1.0" with api_schemas := some c8_doc }

/-- Witness for C8: with a non-empty cached document, the handler returns
the identical cached object with status 200 and does not touch the state. -/
theorem C8_idempotent_caching_witness :
    c8_o.api_schemas = some c8_doc
    ∧ isTruthy c8_doc = true
    ∧ get_openapi_data c8_o [] = (c8_o, [], some (200, c8_doc)) := by
  refine ⟨rfl, rfl, ?_⟩
  exact (C8_idempotent_caching c8_o []).1 c8_doc rfl rfl

/-! ### Security scheme serialization -/

theorem build_security_schemas_src (tk : Option String) :
    ∀ (idx : List (String × AuthDict)) (schemes : List (String × OpenApiSecuritySchema)),
      build_security_schemas tk idx = some schemes →
      ∀ nm sch, (nm, sch) ∈ schemes →
        ∃ ad, (nm, ad) ∈ idx ∧ ad.auth_type = some sch.type
          ∧ sch.flows = password_flows tk := by
  intro idx
  induction idx with
  | nil =>
    intro schemes h nm sch hmem
    simp only [build_security_schemas] at h
    cases h
    cases hmem
  | cons q rest ih =>
    obtain ⟨nm0, ad0⟩ := q
    intro schemes h nm sch hmem
    simp only [build_security_schemas] at h
    cases hat : ad0.auth_type with
    | none => simp only [hat] at h; cases h
    | some ty =>
      simp only [hat] at h
      cases hrec : build_security_schemas tk rest with
      | none => simp only [hrec] at h; cases h
      | some rest2 =>
        simp only [hrec, Option.some.injEq] at h
        rw [← h] at hmem
        rcases List.mem_cons.mp hmem with he | hm2
        · simp only [Prod.mk.injEq] at he
          obtain ⟨he1, he2⟩ := he
          subst he1
          subst he2
          exact ⟨ad0, List.mem_cons_self _ _, hat, rfl⟩
        · obtain ⟨ad, had, hty, hfl⟩ := ih rest2 hrec nm sch hm2
          exact ⟨ad, List.mem_cons_of_mem _ had, hty, hfl⟩

theorem serField_password_flows (tk : Option String) :
    serField (password_flows tk) = password_flows tk := by
  simp [password_flows, serField, serPairs, serElem]

/-- Serializing a security scheme node as built by `get_openapi_components`:
since the constructor assigns an attribute named `schema` while the field
list declares `scheme`, and every other attribute except `type` and `flows`
is `None`, the output dict holds exactly the keys `type` and `flows`. -/
theorem securitySchema_serialization (s : OpenApiSecuritySchema) (tk : Option String)
    (htp : s.type ≠ Value.null) (hfl : s.flows = password_flows tk) :
    serField s.toNode = Value.vdict [("type", serField s.type), ("flows", password_flows tk)] := by
  cases h : s.type with
  | null => exact absurd h htp
  | bool b =>
    simp [OpenApiSecuritySchema.toNode, OpenApiSecuritySchema.fixed_fields, serField,
      dictFields, set_value, alookup, rename_field, dupdate, h, hfl, password_flows,
      serPairs, serElem]
  | int n =>
    simp [OpenApiSecuritySchema.toNode, OpenApiSecuritySchema.fixed_fields, serField,
      dictFields, set_value, alookup, rename_field, dupdate, h, hfl, password_flows,
      serPairs, serElem]
  | str s2 =>
    simp [OpenApiSecuritySchema.toNode, OpenApiSecuritySchema.fixed_fields, serField,
      dictFields, set_value, alookup, rename_field, dupdate, h, hfl, password_flows,
      serPairs, serElem]
  | vlist xs =>
    simp [OpenApiSecuritySchema.toNode, OpenApiSecuritySchema.fixed_fields, serField,
      dictFields, set_value, alookup, rename_field, dupdate, h, hfl, password_flows,
      serPairs, serElem, serList_eq_map, serPairs_eq_map]
  | vdict kvs =>
    simp [OpenApiSecuritySchema.toNode, OpenApiSecuritySchema.fixed_fields, serField,
      dictFields, set_value, alookup, rename_field, dupdate, h, hfl, password_flows,
      serPairs, serElem, serPairs_eq_map]
  | node nfs nattrs =>
    simp [OpenApiSecuritySchema.toNode, OpenApiSecuritySchema.fixed_fields, serField,
      dictFields, set_value, alookup, rename_field, dupdate, h, hfl, password_flows,
      serPairs, serElem]

/-- C10: every security scheme emitted in the components block serializes to
exactly the two keys `type` (the descriptor's `auth_type`) and `flows` (a
password flow with empty scopes and the recorded token URL, null when none
was recorded); the keys `name`, `in`, `scheme`, `bearerFormat`,
`description` and `openIdConnectUrl` never appear, because the field list
declares `scheme` while the constructor only assigns `schema`, and the other
attributes stay `None`. -/
theorem C10_security_scheme_serialization (mn : List (Ty × String)) (st : BuildSt)
    (comps : OpenApiComponents) (hgc : get_openapi_components mn st = some comps) :
    ∀ nm sch, (nm, sch) ∈ comps.securitySchemes →
      (∃ ad, (nm, ad) ∈ st.securitySchemas_index ∧ ad.auth_type = some sch.type)
      ∧ sch.flows = password_flows st.token_url
      ∧ (sch.type ≠ Value.null →
          serField sch.toNode
            = Value.vdict [("type", serField sch.type),
                ("flows", password_flows st.token_url)]) := by
  intro nm sch hmem
  unfold get_openapi_components at hgc
  cases hbs : build_security_schemas st.token_url st.securitySchemas_index with
  | none => simp only [hbs] at hgc; cases hgc
  | some schemes =>
    simp only [hbs, Option.some.injEq] at hgc
    have hs : comps.securitySchemes = schemes := by rw [← hgc]
    rw [hs] at hmem
    obtain ⟨ad, had, hty, hfl⟩ := build_security_schemas_src st.token_url
      st.securitySchemas_index schemes hbs nm sch hmem
    exact ⟨⟨ad, had, hty⟩, hfl,
      fun htp => securitySchema_serialization sch st.token_url htp hfl⟩

def c10_ad : AuthDict :=
  { auth_require := true, name := some "oauth", token_url := false,
    auth_type := some (Value.str "oauth2") }

def c10_st : BuildSt :=
  { securitySchemas_index := [("oauth", c10_ad)], token_url := some "/login" }

def c10_scheme : OpenApiSecuritySchema :=
  { type := Value.str "oauth2", flows := password_flows (some "/login") }

/-- Witness for C10: the emitted scheme serializes to exactly
`type`/`flows`, with the password flow carrying the recorded token URL. -/
theorem C10_security_scheme_serialization_witness :
    get_openapi_components [] c10_st
      = some { schemas := [], securitySchemes := [("oauth", c10_scheme)] }
    ∧ serField c10_scheme.toNode
        = Value.vdict [("type", Value.str "oauth2"), ("flows", password_flows (some "/login"))] := by
  have hgc : get_openapi_components [] c10_st
      = some { schemas := [], securitySchemes := [("oauth", c10_scheme)] } := by rfl
  refine ⟨hgc, ?_⟩
  have h := (C10_security_scheme_serialization [] c10_st
    { schemas := [], securitySchemes := [("oauth", c10_scheme)] } hgc "oauth" c10_scheme
    (by simp)).2.2 (by simp [c10_scheme])
  rw [h]
  simp [c10_scheme, c10_st, serField]

/-! ### Determinism -/

theorem dupdate_self {α : Type} [DecidableEq α] {β : Type} :
    ∀ (l : List (α × β)) (k : α) (v : β), alookup l k = some v → dupdate l k v = l := by
  intro l
  induction l with
  | nil => intro k v h; cases h
  | cons p rest ih =>
    intro k v h
    obtain ⟨a, b⟩ := p
    simp only [alookup] at h
    by_cases hk : a = k
    · rw [if_pos hk] at h
      simp only [dupdate, if_pos hk]
      rw [hk, Option.some.inj h]
    · rw [if_neg hk] at h
      simp only [dupdate, if_neg hk]
      rw [ih k v h]

/-- No handler of any pydantic route carries an auth descriptor. -/
def no_auth (routes : List Route) : Prop :=
  ∀ r, r ∈ routes → ∀ e, r.endpoint = Endpoint.pyd e →
    ∀ p, p ∈ e.handlers → p.2.auth_dict = none

theorem get_operation_noauth (mn : List (Ty × String)) (h : Handler) (route : Route)
    (tags : List String) (st : BuildSt) (op : OpenApiOperation) (h2 : Handler)
    (st2 : BuildSt) (hna : h.auth_dict = none)
    (hop : get_openapi_operation mn h route tags st = some (op, h2, st2)) :
    h2 = h ∧ st2 = st := by
  unfold get_openapi_operation at hop
  cases hcl : classify_anns mn route h.annotations
      { OpenApiOperation.init with tags := tags } with
  | none => simp only [hcl] at hop; cases hop
  | some opc =>
    simp only [hcl] at hop
    unfold process_auth at hop
    rw [hna] at hop
    simp only [Option.some.injEq, Prod.mk.injEq] at hop
    obtain ⟨_, e2, e3⟩ := hop
    exact ⟨e2.symm, e3.symm⟩

theorem path_methods_noauth (mn : List (Ty × String)) (route : Route) :
    ∀ (methods : List String) (p : OpenApiPath) (e : PydEndpoint) (st : BuildSt)
      (p2 : OpenApiPath) (e2 : PydEndpoint) (st2 : BuildSt),
      (∀ q, q ∈ e.handlers → q.2.auth_dict = none) →
      path_methods mn route methods p e st = some (p2, e2, st2) →
      e2 = e ∧ st2 = st := by
  intro methods
  induction methods with
  | nil =>
    intro p e st p2 e2 st2 _ h
    simp only [path_methods, Option.some.injEq, Prod.mk.injEq] at h
    obtain ⟨_, he, hst⟩ := h
    exact ⟨he.symm, hst.symm⟩
  | cons m rest ih =>
    intro p e st p2 e2 st2 hna h
    simp only [path_methods] at h
    cases hlk : alookup e.handlers m with
    | none =>
      simp only [hlk] at h
      exact ih p e st p2 e2 st2 hna h
    | some hd =>
      simp only [hlk] at h
      cases hgo : get_openapi_operation mn hd route e.tags st with
      | none => simp only [hgo] at h; cases h
      | some res =>
        obtain ⟨op, hd2, stm⟩ := res
        simp only [hgo] at h
        have hhna : hd.auth_dict = none := hna (m, hd) (alookup_mem hlk)
        obtain ⟨hhd, hstm⟩ := get_operation_noauth mn hd route e.tags st op hd2 stm hhna hgo
        rw [hhd, hstm, dupdate_self e.handlers m hd hlk] at h
        have hee : { e with handlers := e.handlers } = e := by
          cases e
          rfl
        rw [hee] at h
        exact ih _ e st p2 e2 st2 hna h

theorem get_paths_noauth (mn : List (Ty × String)) :
    ∀ (routes : List Route) (ps : OpenApiPaths) (st : BuildSt)
      (ps2 : OpenApiPaths) (routes2 : List Route) (st2 : BuildSt),
      no_auth routes →
      get_openapi_paths mn routes ps st = some (ps2, routes2, st2) →
      routes2 = routes ∧ st2 = st := by
  intro routes
  induction routes with
  | nil =>
    intro ps st ps2 routes2 st2 _ h
    simp only [get_openapi_paths, Option.some.injEq, Prod.mk.injEq] at h
    obtain ⟨_, hr, hst⟩ := h
    exact ⟨hr.symm, hst.symm⟩
  | cons r rest ih =>
    intro ps st ps2 routes2 st2 hna h
    simp only [get_openapi_paths] at h
    have hnarest : no_auth rest := by
      intro r2 hr2 e he q hq
      exact hna r2 (List.mem_cons_of_mem _ hr2) e he q hq
    cases hre : r.endpoint with
    | plain =>
      rw [hre] at h
      cases hrec : get_openapi_paths mn rest ps st with
      | none => simp only [hrec] at h; cases h
      | some res =>
        obtain ⟨psm, restm, stm⟩ := res
        simp only [hrec, Option.some.injEq, Prod.mk.injEq] at h
        obtain ⟨_, hr2, hst⟩ := h
        obtain ⟨hrr, hss⟩ := ih ps st psm restm stm hnarest hrec
        rw [← hr2, ← hst, hrr, hss]
        exact ⟨rfl, rfl⟩
    | pyd e =>
      rw [hre] at h
      cases hgp : get_openapi_path mn r e st with
      | none => simp only [hgp] at h; cases h
      | some res =>
        obtain ⟨p, e2, stm⟩ := res
        simp only [hgp] at h
        have hnae : ∀ q, q ∈ e.handlers → q.2.auth_dict = none :=
          hna r (List.mem_cons_self _ _) e hre
        have hgp2 : path_methods mn r OpenApiPath.operations { ops := [] } e st
            = some (p, e2, stm) := hgp
        obtain ⟨hee, hss⟩ := path_methods_noauth mn r OpenApiPath.operations
          { ops := [] } e st p e2 stm hnae hgp2
        rw [hee, hss] at h
        cases hrec : get_openapi_paths mn rest (ps.add_path r.path p) st with
        | none => simp only [hrec] at h; cases h
        | some res2 =>
          obtain ⟨ps3, rest3, st3⟩ := res2
          simp only [hrec, Option.some.injEq, Prod.mk.injEq] at h
          obtain ⟨_, hr2, hst⟩ := h
          obtain ⟨hrr, hss2⟩ := ih (ps.add_path r.path p) st ps3 rest3 st3 hnarest hrec
          rw [← hr2, ← hst, hrr, hss2]
          refine ⟨?_, rfl⟩
          have : { r with endpoint := Endpoint.pyd e } = r := by
            cases r
            simp only at hre
            rw [hre]
          rw [this]

/-- The build only reads the instance's title, description, version,
security index and token URL; two states agreeing on those produce the same
route table, document object and serialized document. -/
theorem run_build_congr (o o2 : OpenApi) (routes : List Route)
    (ht : o.title = o2.title) (hd : o.description = o2.description)
    (hv : o.version = o2.version)
    (hi : o.securitySchemas_index = o2.securitySchemas_index)
    (hk : o.token_url = o2.token_url) :
    (run_build o routes).map (fun x => (x.2.1, x.2.2.1, x.2.2.2))
      = (run_build o2 routes).map (fun x => (x.2.1, x.2.2.1, x.2.2.2)) := by
  unfold run_build
  rw [ht, hd, hv, hi, hk]
  cases hmn : get_models_name routes with
  | none => simp only [hmn]
  | some mn =>
    simp only [hmn]
    cases hgp : get_openapi_paths mn routes { paths := [] }
        { securitySchemas_index := o2.securitySchemas_index, token_url := o2.token_url } with
    | none => simp only [hgp]
    | some res =>
      obtain ⟨paths, routesb, stb⟩ := res
      simp only [hgp]
      cases hgc : get_openapi_components mn stb with
      | none => simp only [hgc]
      | some components =>
        simp only [hgc]
        rfl

/-- Amended C6: for a route table in which no handler carries an auth
descriptor, the full build is deterministic and effect-free on its inputs —
a second build from the state and route table left by the first produces the
identical document object, serialized document and route table.  (As stated,
the claim fails: consuming an auth descriptor mutates the handlers and the
instance, see the counterexample.) -/
theorem C6_determinism_amended (o : OpenApi) (routes : List Route)
    (hna : no_auth routes)
    (o1 : OpenApi) (routes1 : List Route) (data1 : OpenApiData) (doc1 : Value)
    (h1 : run_build o routes = some (o1, routes1, data1, doc1))
    (o2 : OpenApi) (routes2 : List Route) (data2 : OpenApiData) (doc2 : Value)
    (h2 : run_build o1 routes1 = some (o2, routes2, data2, doc2)) :
    doc2 = doc1 ∧ data2 = data1 ∧ routes2 = routes1 ∧ routes1 = routes := by
  have hcore := h1
  unfold run_build at hcore
  cases hmn : get_models_name routes with
  | none => simp only [hmn] at hcore; cases hcore
  | some mn =>
    simp only [hmn] at hcore
    cases hgp : get_openapi_paths mn routes { paths := [] }
        { securitySchemas_index := o.securitySchemas_index, token_url := o.token_url } with
    | none => simp only [hgp] at hcore; cases hcore
    | some res =>
      obtain ⟨paths, routesb, stb⟩ := res
      simp only [hgp] at hcore
      cases hgc : get_openapi_components mn stb with
      | none => simp only [hgc] at hcore; cases hcore
      | some components =>
        simp only [hgc, Option.some.injEq, Prod.mk.injEq] at hcore
        obtain ⟨ho1, hroutes1, _, _⟩ := hcore
        obtain ⟨hrb, hstb⟩ := get_paths_noauth mn routes { paths := [] } _ paths routesb stb hna hgp
        have hroutes1eq : routes1 = routes := by rw [← hroutes1, hrb]
        have hview : o1.title = o.title ∧ o1.description = o.description
            ∧ o1.version = o.version
            ∧ o1.securitySchemas_index = o.securitySchemas_index
            ∧ o1.token_url = o.token_url := by
          rw [← ho1]
          refine ⟨rfl, rfl, rfl, ?_, ?_⟩
          · simp only []
            rw [hstb]
          · simp only []
            rw [hstb]
        have hcongr := run_build_congr o1 o routes1 hview.1 hview.2.1 hview.2.2.1
          hview.2.2.2.1 hview.2.2.2.2
        rw [h2] at hcongr
        rw [hroutes1eq] at hcongr
        rw [h1] at hcongr
        simp only [Option.map_some', Option.some.injEq, Prod.mk.injEq] at hcongr
        obtain ⟨hr, hdt, hdc⟩ := hcongr
        exact ⟨hdc, hdt, hr, hroutes1eq⟩


/-- Counterexample fixture: an auth descriptor attached by the
`BasicAuthBackend`-style decorator (`auth_require` set, named `oauth`). -/
def c6_ad : AuthDict :=
  { auth_require := true, name := some "oauth", token_url := false,
    auth_type := some (Value.str "oauth2") }

def c6_handler : Handler := { annotations := [], auth_dict := some c6_ad }

/-- A single pydantic route whose `get` handler carries the descriptor. -/
def c6_routes : List Route :=
  [{ path := "/a", param_convertors := [],
     endpoint := Endpoint.pyd { tags := [], handlers := [("get", c6_handler)] } }]

/-- The same table after the first build: `del handler.auth_dict` has
consumed the descriptor. -/
def c6_routes1 : List Route :=
  [{ path := "/a", param_convertors := [],
     endpoint := Endpoint.pyd { tags := [], handlers := [("get", { annotations := [], auth_dict := none })] } }]

def c6_op1 : OpenApiOperation :=
  { tags := [], parameters := [], requestBody := none, responses := [],
    security := [{ name := "oauth", scopes := [] }] }

def c6_op2 : OpenApiOperation :=
  { tags := [], parameters := [], requestBody := none, responses := [], security := [] }

def c6_scheme : OpenApiSecuritySchema :=
  { type := Value.str "oauth2", flows := password_flows none }

def c6_info : OpenApiInfo := { title := "T", description := none, version := "1.0" }

def c6_comps : OpenApiComponents :=
  { schemas := [], securitySchemes := [("oauth", c6_scheme)] }

/-- Document object of the first build: the operation still lists the
`oauth` security requirement. -/
def c6_data1 : OpenApiData :=
  { openapi := "3.0.3", info := c6_info,
    paths := { paths := [("/a", { ops := [("get", c6_op1)] })] },
    components := c6_comps }

/-- Document object of the second build: the descriptor is gone, so the
operation's security list is empty (the scheme survives only because the
instance's `securitySchemas_index` persists). -/
def c6_data2 : OpenApiData :=
  { openapi := "3.0.3", info := c6_info,
    paths := { paths := [("/a", { ops := [("get", c6_op2)] })] },
    components := c6_comps }

def c6_o0 : OpenApi := OpenApi.init "T" none "/openapi" "1.0"

def c6_o1 : OpenApi :=
  { c6_o0 with models_name := some [],
               securitySchemas_index := [("oauth", c6_ad)],
               api_schemas := some (serField c6_data1.toNode),
               delegateCalls := 1 }

def c6_o2 : OpenApi :=
  { c6_o1 with api_schemas := some (serField c6_data2.toNode),
               delegateCalls := 2 }

/-- C6 (counterexample): building the document is NOT deterministic and NOT
effect-free.  On a route table with one handler carrying an `auth_require`
descriptor, the first build consumes the descriptor (`del handler.auth_dict`
mutates the route table), and the second build — run from the state and
table the first one left — produces a different document: its operation has
lost the `security` requirement list. -/
theorem C6_determinism_counterexample :
    run_build c6_o0 c6_routes
      = some (c6_o1, c6_routes1, c6_data1, serField c6_data1.toNode)
    ∧ run_build c6_o1 c6_routes1
      = some (c6_o2, c6_routes1, c6_data2, serField c6_data2.toNode)
    ∧ c6_routes1 ≠ c6_routes
    ∧ serField c6_data1.toNode ≠ serField c6_data2.toNode := by
  refine ⟨by rfl, by rfl, by simp [c6_routes, c6_routes1, c6_handler, c6_ad], ?_⟩
  have hpath1 : serField (OpenApiPath.toNode { ops := [("get", c6_op1)] })
      = Value.vdict [("get", Value.vdict
          [("tags", Value.vlist []), ("parameters", Value.vlist []),
           ("responses", Value.vdict []), ("deprecated", Value.bool false),
           ("security", Value.vlist [Value.vdict [("oauth", Value.vlist [])]])])] := by
    simp [OpenApiPath.toNode, OpenApiPath.fixed_fields, OpenApiPath.operations, c6_op1,
          OpenApiOperation.toNode, OpenApiOperation.fixed_fields,
          OpenApiOperationSeucirty.dictV, serField, serElem, serList, serPairs,
          dictFields, set_value, alookup, dupdate, rename_field]
  have hpath2 : serField (OpenApiPath.toNode { ops := [("get", c6_op2)] })
      = Value.vdict [("get", Value.vdict
          [("tags", Value.vlist []), ("parameters", Value.vlist []),
           ("responses", Value.vdict []), ("deprecated", Value.bool false),
           ("security", Value.vlist [])])] := by
    simp [OpenApiPath.toNode, OpenApiPath.fixed_fields, OpenApiPath.operations, c6_op2,
          OpenApiOperation.toNode, OpenApiOperation.fixed_fields,
          OpenApiOperationSeucirty.dictV, serField, serElem, serList, serPairs,
          dictFields, set_value, alookup, dupdate, rename_field]
  have hdoc1 : serField (OpenApiData.toNode c6_data1)
      = Value.vdict
          [("openapi", Value.str "3.0.3"),
           ("info", Value.vdict [("title", Value.str "T"), ("version", Value.str "1.0")]),
           ("paths", Value.vdict [("/a", Value.vdict [("get", Value.vdict
              [("tags", Value.vlist []), ("parameters", Value.vlist []),
               ("responses", Value.vdict []), ("deprecated", Value.bool false),
               ("security", Value.vlist [Value.vdict [("oauth", Value.vlist [])]])])])]),
           ("components", Value.vdict
              [("schemas", Value.vdict []), ("responses", Value.vdict []),
               ("parameters", Value.vdict []), ("examples", Value.vdict []),
               ("requestBodies", Value.vdict []), ("headers", Value.vdict []),
               ("securitySchemes", Value.vdict [("oauth", Value.vdict
                  [("type", Value.str "oauth2"),
                   ("flows", Value.vdict [("password", Value.vdict
                      [("scopes", Value.vdict []), ("tokenUrl", Value.null)])])])]),
               ("links", Value.vdict []), ("callbacks", Value.vdict [])]),
           ("security", Value.vlist []), ("tags", Value.vlist [])] := by
    simp [OpenApiData.toNode, OpenApiData.fixed_fields, c6_data1, c6_info, c6_comps,
          OpenApiInfo.toNode, OpenApiInfo.fixed_fields, optStr,
          OpenApiPaths.dictV, hpath1,
          OpenApiComponents.toNode, OpenApiComponents.fixed_fields, c6_scheme,
          OpenApiSecuritySchema.toNode, OpenApiSecuritySchema.fixed_fields, password_flows,
          serField, serElem, serList, serPairs, dictFields, set_value, alookup, dupdate,
          rename_field]
  have hdoc2 : serField (OpenApiData.toNode c6_data2)
      = Value.vdict
          [("openapi", Value.str "3.0.3"),
           ("info", Value.vdict [("title", Value.str "T"), ("version", Value.str "1.0")]),
           ("paths", Value.vdict [("/a", Value.vdict [("get", Value.vdict
              [("tags", Value.vlist []), ("parameters", Value.vlist []),
               ("responses", Value.vdict []), ("deprecated", Value.bool false),
               ("security", Value.vlist [])])])]),
           ("components", Value.vdict
              [("schemas", Value.vdict []), ("responses", Value.vdict []),
               ("parameters", Value.vdict []), ("examples", Value.vdict []),
               ("requestBodies", Value.vdict []), ("headers", Value.vdict []),
               ("securitySchemes", Value.vdict [("oauth", Value.vdict
                  [("type", Value.str "oauth2"),
                   ("flows", Value.vdict [("password", Value.vdict
                      [("scopes", Value.vdict []), ("tokenUrl", Value.null)])])])]),
               ("links", Value.vdict []), ("callbacks", Value.vdict [])]),
           ("security", Value.vlist []), ("tags", Value.vlist [])] := by
    simp [OpenApiData.toNode, OpenApiData.fixed_fields, c6_data2, c6_info, c6_comps,
          OpenApiInfo.toNode, OpenApiInfo.fixed_fields, optStr,
          OpenApiPaths.dictV, hpath2,
          OpenApiComponents.toNode, OpenApiComponents.fixed_fields, c6_scheme,
          OpenApiSecuritySchema.toNode, OpenApiSecuritySchema.fixed_fields, password_flows,
          serField, serElem, serList, serPairs, dictFields, set_value, alookup, dupdate,
          rename_field]
  intro h
  rw [hdoc1, hdoc2] at h
  simp at h

/-- Witness fixture: the auth-free build's document object. -/
def c6w_data : OpenApiData :=
  { openapi := "3.0.3", info := c6_info,
    paths := { paths := [("/a", { ops := [("get", c6_op2)] })] },
    components := { schemas := [], securitySchemes := [] } }

def c6w_o1 : OpenApi :=
  { c6_o0 with models_name := some [],
               api_schemas := some (serField c6w_data.toNode),
               delegateCalls := 1 }

def c6w_o2 : OpenApi :=
  { c6w_o1 with delegateCalls := 2 }

/-- Witness for the amended C6 theorem: on the auth-free route table,
running the build twice yields the same route table, document object and
serialized document. -/
theorem C6_determinism_amended_witness :
    no_auth c6_routes1
    ∧ run_build c6_o0 c6_routes1
        = some (c6w_o1, c6_routes1, c6w_data, serField c6w_data.toNode)
    ∧ run_build c6w_o1 c6_routes1
        = some (c6w_o2, c6_routes1, c6w_data, serField c6w_data.toNode)
    ∧ serField c6w_data.toNode = serField c6w_data.toNode
    ∧ c6w_data = c6w_data ∧ c6_routes1 = c6_routes1 := by
  have hna : no_auth c6_routes1 := by
    intro r hr e he p hp
    simp only [c6_routes1, List.mem_singleton] at hr
    subst hr
    simp only [c6_routes1] at he
    cases he
    simp only [List.mem_singleton] at hp
    subst hp
    rfl
  have h1 : run_build c6_o0 c6_routes1
      = some (c6w_o1, c6_routes1, c6w_data, serField c6w_data.toNode) := by rfl
  have h2 : run_build c6w_o1 c6_routes1
      = some (c6w_o2, c6_routes1, c6w_data, serField c6w_data.toNode) := by rfl
  have hc := C6_determinism_amended c6_o0 c6_routes1 hna c6w_o1 c6_routes1 c6w_data
    (serField c6w_data.toNode) h1 c6w_o2 c6_routes1 c6w_data
    (serField c6w_data.toNode) h2
  exact ⟨hna, h1, h2, hc.1, hc.2.1, hc.2.2.1⟩
